import Mathlib

/-!
Formal model of the `hk-holidays` repository's holiday ETL pipeline.

The repository has two scripts:

* `src/scripts/fetch_company_holidays.mjs` — reads the 1823 calendar feeds
  (`en.json` / `zh.json`), extracts events (jCal array / plain array / jCal
  object shapes), normalizes dates, expands RRULE/RDATE/EXDATE recurrences,
  merges English and Chinese names by date into a `Map`, filters to the year
  window 2017..2026, sorts, and writes per-year lists plus an `ALL` list.
  An optional `--statutory` CLI flag triggers a second pass that scrapes the
  Labour Department pages and fills in the `statutory` flag.

* `src/generate.js` — an older builder with `fetchSafe` (retry with linear
  backoff), `mergeAndMark` (per-year merge of general and statutory data)
  and a final de-duplication filter keyed on
  `date|name_en|name_zh|general_holiday|statutory_holiday`.

The JavaScript is modelled shallowly: JSON values become the inductive
`JVal`, JS strings become `String` (reasoned about via their `List Char`
data), JS `Set`/`Map` become insertion-ordered lists, and
`Array.prototype.sort` (a stable sort) is modelled by insertion sort.
`String.prototype.localeCompare` and JS `<=` on strings are modelled by
code-unit lexicographic comparison, which agrees with them on the
same-shaped ASCII date strings this program compares.  Throwing code paths
that the scripts do not catch (`name.toLowerCase()` / `String.trim` applied
to a non-string) are modelled with `Except`.
-/

namespace HkHolidays

/-! ### Character and string utilities -/

/-- The characters matched by the JS `\s` class (the ones relevant to this
data: ASCII whitespace and NBSP). -/
def jsWhitespace (c : Char) : Bool :=
  c = ' ' ∨ c = '\t' ∨ c = '\n' ∨ c = '\r' ∨ c = Char.ofNat 11 ∨
    c = Char.ofNat 12 ∨ c = Char.ofNat 160

/-- JS line terminators (not matched by `.` in a regex, and the only
positions where `$` may match besides the end of input is none at all
without the `m` flag). -/
def jsLineTerm (c : Char) : Bool :=
  c = '\n' ∨ c = '\r' ∨ c = Char.ofNat 0x2028 ∨ c = Char.ofNat 0x2029

/-- `String.prototype.trim`: strip JS whitespace from both ends. -/
def trimChars (l : List Char) : List Char :=
  ((l.dropWhile jsWhitespace).reverse.dropWhile jsWhitespace).reverse

/-- `normalize` from `fetch_company_holidays.mjs`: `(s || '').trim()`
restricted to the string case. -/
def jsTrim (s : String) : String :=
  String.mk (trimChars s.data)

def isAsciiDigit (c : Char) : Bool :=
  '0' ≤ c ∧ c ≤ '9'

/-- Code-unit lexicographic `≤` on character lists (the order JS `<=` and,
on same-shaped ASCII strings, `localeCompare` induce). -/
def lexLeB : List Char → List Char → Bool
  | [], _ => true
  | _ :: _, [] => false
  | a :: as, b :: bs =>
    if a.toNat < b.toNat then true
    else if b.toNat < a.toNat then false
    else lexLeB as bs

/-- Code-unit lexicographic `<` on character lists. -/
def lexLtB : List Char → List Char → Bool
  | [], [] => false
  | [], _ :: _ => true
  | _ :: _, [] => false
  | a :: as, b :: bs =>
    if a.toNat < b.toNat then true
    else if b.toNat < a.toNat then false
    else lexLtB as bs

/-- JS string `<=` / non-positive `localeCompare`, on whole strings. -/
def strLe (a b : String) : Bool :=
  lexLeB a.data b.data

/-- JS string `<` on whole strings. -/
def strLt (a b : String) : Bool :=
  lexLtB a.data b.data

theorem lexLeB_total : ∀ a b : List Char, lexLeB a b = true ∨ lexLeB b a = true
  | [], _ => Or.inl rfl
  | _ :: _, [] => Or.inr rfl
  | a :: as, b :: bs => by
    simp only [lexLeB]
    rcases Nat.lt_trichotomy a.toNat b.toNat with h | h | h
    · simp [h]
    · simp [h, Nat.lt_irrefl]
      exact lexLeB_total as bs
    · simp [h, Nat.lt_asymm h]

theorem char_eq_of_toNat_eq {a b : Char} (h : a.toNat = b.toNat) : a = b :=
  Char.eq_of_val_eq (UInt32.toNat.inj h)

theorem lexLeB_trans : ∀ a b c : List Char,
    lexLeB a b = true → lexLeB b c = true → lexLeB a c = true
  | [], _, _ => by intro _ _; rfl
  | _ :: _, [], _ => by intro h _; exact absurd h (by simp [lexLeB])
  | _ :: _, _ :: _, [] => by intro _ h; exact absurd h (by simp [lexLeB])
  | a :: as, b :: bs, c :: cs => by
    intro h₁ h₂
    simp only [lexLeB] at h₁ h₂ ⊢
    rcases Nat.lt_trichotomy a.toNat b.toNat with hab | hab | hab
    · rcases Nat.lt_trichotomy b.toNat c.toNat with hbc | hbc | hbc
      · simp [Nat.lt_trans hab hbc]
      · have : a.toNat < c.toNat := by omega
        simp [this]
      · simp [Nat.lt_asymm hbc, hbc] at h₂
    · rcases Nat.lt_trichotomy b.toNat c.toNat with hbc | hbc | hbc
      · have : a.toNat < c.toNat := by omega
        simp [this]
      · have hac : ¬ a.toNat < c.toNat := by omega
        have hca : ¬ c.toNat < a.toNat := by omega
        simp only [hab, Nat.lt_irrefl, if_false] at h₁
        simp only [hbc, Nat.lt_irrefl, if_false] at h₂
        simp only [hac, hca, if_false]
        exact lexLeB_trans as bs cs h₁ h₂
      · simp [Nat.lt_asymm hbc, hbc] at h₂
    · simp [Nat.lt_asymm hab, hab] at h₁
  termination_by a b c => a.length + b.length + c.length

theorem lexLeB_antisymm : ∀ a b : List Char,
    lexLeB a b = true → lexLeB b a = true → a = b
  | [], [], _, _ => rfl
  | [], _ :: _, _, h => absurd h (by simp [lexLeB])
  | _ :: _, [], h, _ => absurd h (by simp [lexLeB])
  | a :: as, b :: bs, h₁, h₂ => by
    rcases Nat.lt_trichotomy a.toNat b.toNat with hab | hab | hab
    · exact absurd h₂ (by simp [lexLeB, hab, Nat.lt_asymm hab])
    · have ha : a = b := char_eq_of_toNat_eq hab
      subst ha
      have h₁' : lexLeB as bs = true := by
        simpa [lexLeB, Nat.lt_irrefl] using h₁
      have h₂' : lexLeB bs as = true := by
        simpa [lexLeB, Nat.lt_irrefl] using h₂
      rw [lexLeB_antisymm as bs h₁' h₂']
    · exact absurd h₁ (by simp [lexLeB, hab, Nat.lt_asymm hab])

theorem lexLtB_le : ∀ a b : List Char, lexLtB a b = true → lexLeB a b = true
  | [], [] => by intro h; exact absurd h (by simp [lexLtB])
  | [], _ :: _ => by intro _; rfl
  | _ :: _, [] => by intro h; exact absurd h (by simp [lexLtB])
  | a :: as, b :: bs => by
    simp only [lexLtB, lexLeB]
    rcases Nat.lt_trichotomy a.toNat b.toNat with h | h | h
    · simp [h]
    · simp [h, Nat.lt_irrefl]
      exact lexLtB_le as bs
    · simp [h, Nat.lt_asymm h]

/-- Strict order from non-strict plus inequality. -/
theorem lexLtB_of_le_of_ne : ∀ a b : List Char,
    lexLeB a b = true → a ≠ b → lexLtB a b = true
  | [], [], _, hne => absurd rfl hne
  | [], _ :: _, _, _ => rfl
  | _ :: _, [], h, _ => absurd h (by simp [lexLeB])
  | a :: as, b :: bs, h, hne => by
    simp only [lexLeB] at h
    simp only [lexLtB]
    rcases Nat.lt_trichotomy a.toNat b.toNat with hab | hab | hab
    · simp [hab]
    · have ha : a = b := char_eq_of_toNat_eq hab
      subst ha
      simp only [Nat.lt_irrefl, if_false] at h ⊢
      refine lexLtB_of_le_of_ne as bs h ?_
      intro hp; exact hne (by rw [hp])
    · simp [hab, Nat.lt_asymm hab] at h

/-- A strict comparison of `n`-prefixes forces a strict comparison of the
full lists: used to chain per-year chunks (keyed by the first four
characters of the date) into a globally sorted list. -/
theorem lexLtB_of_take : ∀ (n : Nat) (a b : List Char),
    lexLtB (a.take n) (b.take n) = true → lexLtB a b = true
  | 0, _, _, h => absurd h (by simp [lexLtB])
  | _ + 1, [], [], h => absurd h (by simp [lexLtB])
  | _ + 1, [], _ :: _, _ => rfl
  | _ + 1, _ :: _, [], h => absurd h (by simp [lexLtB])
  | n + 1, a :: as, b :: bs, h => by
    simp only [List.take, lexLtB] at h ⊢
    rcases Nat.lt_trichotomy a.toNat b.toNat with hab | hab | hab
    · simp [hab]
    · simp only [hab, Nat.lt_irrefl, if_false] at h ⊢
      exact lexLtB_of_take n as bs h
    · simp [hab, Nat.lt_asymm hab] at h

/-- JS `String.prototype.split` with a single-character separator.
`''.split(c)` is `['']`, i.e. the empty list of characters splits to one
empty chunk. -/
def splitOnCharAux (sep : Char) : List Char → List Char → List (List Char)
  | acc, [] => [acc.reverse]
  | acc, c :: cs =>
    if c = sep then acc.reverse :: splitOnCharAux sep [] cs
    else splitOnCharAux sep (c :: acc) cs

def splitOnChar (sep : Char) (l : List Char) : List (List Char) :=
  splitOnCharAux sep [] l

/-- First-occurrence de-duplication, preserving order (the key order of a
JS object / `Map` built by repeated insertion). -/
def dedupFirst : List String → List String
  | [] => []
  | x :: xs => x :: (dedupFirst xs).filter (fun y => y ≠ x)

/-- `Set.prototype.add`: append if not already present (JS sets preserve
insertion order). -/
def setAdd (l : List String) (x : String) : List String :=
  if x ∈ l then l else l ++ [x]

/-- `Set.prototype.delete`. -/
def setDel (l : List String) (x : String) : List String :=
  l.filter (fun y => y ≠ x)

theorem mem_foldl_setAdd : ∀ (xs : List String) (init : List String) (x : String),
    (x ∈ xs.foldl setAdd init) ↔ (x ∈ init ∨ x ∈ xs)
  | [], init, x => by simp
  | y :: ys, init, x => by
    simp only [List.foldl_cons, mem_foldl_setAdd ys, setAdd, List.mem_cons]
    by_cases hy : y ∈ init
    · simp only [if_pos hy]
      constructor
      · rintro (h | h)
        · exact Or.inl h
        · exact Or.inr (Or.inr h)
      · rintro (h | h | h)
        · exact Or.inl h
        · exact Or.inl (h ▸ hy)
        · exact Or.inr h
    · simp only [if_neg hy, List.mem_append, List.mem_singleton]
      constructor
      · rintro ((h | h) | h)
        · exact Or.inl h
        · exact Or.inr (Or.inl h)
        · exact Or.inr (Or.inr h)
      · rintro (h | h | h)
        · exact Or.inl (Or.inl h)
        · exact Or.inl (Or.inr h)
        · exact Or.inr h

theorem mem_foldl_setDel : ∀ (xs : List String) (init : List String) (x : String),
    (x ∈ xs.foldl setDel init) ↔ (x ∈ init ∧ x ∉ xs)
  | [], init, x => by simp
  | y :: ys, init, x => by
    simp only [List.foldl_cons, mem_foldl_setDel ys, setDel, List.mem_filter,
      decide_eq_true_eq, List.mem_cons]
    constructor
    · rintro ⟨⟨h₁, h₂⟩, h₃⟩
      exact ⟨h₁, by rintro (h | h); exact h₂ h; exact h₃ h⟩
    · rintro ⟨h₁, h₂⟩
      exact ⟨⟨h₁, fun h => h₂ (Or.inl h)⟩, fun h => h₂ (Or.inr h)⟩

/-- `String(n).padStart(2, '0')` for the integers this program renders
(month and day numbers). -/
def pad2 (n : Int) : String :=
  let s := toString n
  if s.data.length = 1 then String.mk ('0' :: s.data) else s

def digitsToNat (l : List Char) : Nat :=
  l.foldl (fun acc c => acc * 10 + (c.toNat - '0'.toNat)) 0

/-- `parseInt(s, 10)` restricted to its leading-digit behaviour: parse the
maximal leading run of ASCII digits, `none` for `NaN` (no leading digit).
The sign/whitespace handling of `parseInt` is never exercised here because
every parsed string starts with a digit or is non-numeric. -/
def parseIntLeading (s : String) : Option Nat :=
  let ds := s.data.takeWhile isAsciiDigit
  if ds.isEmpty then none else some (digitsToNat ds)

/-! ### Calendar arithmetic

`new Date(Date.UTC(y, m, 0)).getUTCDate()` (the number of days of month
`m`, 1-based, with JS month overflow normalization) and
`Date.prototype.getUTCDay` are modelled by ordinary proleptic-Gregorian
arithmetic. -/

def isLeapYear (y : Int) : Bool :=
  y % 4 = 0 ∧ (y % 100 ≠ 0 ∨ y % 400 = 0)

/-- Days in month `m` (1..12) of year `y`. -/
def daysInMonthCore (y : Int) (m : Nat) : Nat :=
  if m = 2 then (if isLeapYear y then 29 else 28)
  else if m = 4 ∨ m = 6 ∨ m = 9 ∨ m = 11 then 30
  else 31

/-- JS `Date` month normalization: a (year, 1-based month) pair with the
month possibly outside 1..12 is folded into the year. -/
def normYM (y m : Int) : Int × Nat :=
  (y + (m - 1).fdiv 12, ((m - 1).emod 12).toNat + 1)

/-- `new Date(Date.UTC(y, m, 0)).getUTCDate()`: days in (possibly
overflowing) 1-based month `m` of year `y`. -/
def daysInMonthZ (y m : Int) : Nat :=
  daysInMonthCore (normYM y m).1 (normYM y m).2

/-- Days since 1970-01-01 of a normalized civil date (Howard Hinnant's
`days_from_civil`, the arithmetic behind `Date.UTC`). -/
def daysFromCivil (y : Int) (m : Nat) (d : Int) : Int :=
  let y' := if m ≤ 2 then y - 1 else y
  let era := y'.fdiv 400
  let yoe := y' - era * 400
  let mp : Int := if m > 2 then (m : Int) - 3 else (m : Int) + 9
  let doy := (153 * mp + 2).fdiv 5 + d - 1
  let doe := yoe * 365 + yoe.fdiv 4 - yoe.fdiv 100 + doy
  era * 146097 + doe - 719468

/-- `getUTCDay` of the (possibly month-overflowing) date `(y, m, d)`:
0 = Sunday. 1970-01-01 was a Thursday (4). -/
def dayOfWeekUTC (y m d : Int) : Nat :=
  let (y', m') := normYM y m
  ((daysFromCivil y' m' d + 4).emod 7).toNat

/-! ### JSON values

The feeds are read with `JSON.parse`, so an event is an arbitrary JSON
value.  JS `undefined` is modelled as `null` (the two are interchangeable
for every use in these scripts: both are falsy and neither is ever
stringified).  Numbers are modelled as integers; the feeds carry no
fractional numbers and no theorem below depends on one. -/

inductive JVal where
  | null
  | bool (b : Bool)
  | num (n : Int)
  | str (s : String)
  | arr (xs : List JVal)
  | obj (fields : List (String × JVal))
deriving Repr

/-- JS truthiness (`NaN` does not arise: numbers here come from
`JSON.parse`). -/
def jsTruthy : JVal → Bool
  | .null => false
  | .bool b => b
  | .num n => n ≠ 0
  | .str s => s ≠ ""
  | .arr _ => true
  | .obj _ => true

def joinComma : List String → String
  | [] => ""
  | [x] => x
  | x :: xs => x ++ "," ++ joinComma xs

mutual
/-- JS `String(v)` on a JSON value (arrays join their elements with `,`,
rendering `null` elements as empty, exactly as `Array.prototype.toString`
does). -/
def jsToString : JVal → String
  | .null => "null"
  | .bool b => if b then "true" else "false"
  | .num n => toString n
  | .str s => s
  | .arr xs => joinComma (jsToStringElems xs)
  | .obj _ => "[object Object]"

def jsToStringElems : List JVal → List String
  | [] => []
  | .null :: xs => "" :: jsToStringElems xs
  | x :: xs => jsToString x :: jsToStringElems xs
end

/-- Property access on a JSON value: `item?.k`.  Only objects have the
properties used by these scripts. -/
def fieldOf (item : JVal) (k : String) : Option JVal :=
  match item with
  | .obj fs => fs.lookup k
  | _ => none

/-- A `a?.k1 || a?.k2 || ...` chain.  The JS chain yields its last operand
even when falsy; every consumer immediately tests for falsiness, so the
falsy outcome is collapsed to `none`. -/
def firstTruthyField (item : JVal) : List String → Option JVal
  | [] => none
  | k :: ks =>
    match fieldOf item k with
    | some v => if jsTruthy v then some v else firstTruthyField item ks
    | none => firstTruthyField item ks

/-! ### Date normalization

`getDate` in `get1823List` and `parseRuleDate` share the same string
logic: strip a `T...` time suffix (`v.replace(/T.*$/, '')`), then accept
exactly-8-digit strings (reformatted with dashes) or `\d{4}-\d{2}-\d{2}`
strings (returned unchanged); anything else yields `''`. -/

/-- `v.replace(/T.*$/, '')`: erase from the first `'T'` that is not
followed by a line terminator (without the `s`/`m` flags, `.` cannot cross
a line terminator and `$` only matches at the end of the input). -/
def stripTAux : List Char → List Char
  | [] => []
  | c :: cs => if c = 'T' ∧ ¬ cs.any jsLineTerm then [] else c :: stripTAux cs

/-- `/^\d{8}$/.test v` -/
def isEightDigits (l : List Char) : Bool :=
  l.length = 8 ∧ l.all isAsciiDigit

/-- `/^\d{4}-\d{2}-\d{2}$/.test v` -/
def isoShapeChars : List Char → Bool
  | [y1, y2, y3, y4, s1, m1, m2, s2, d1, d2] =>
    isAsciiDigit y1 ∧ isAsciiDigit y2 ∧ isAsciiDigit y3 ∧ isAsciiDigit y4 ∧
      s1 = '-' ∧ isAsciiDigit m1 ∧ isAsciiDigit m2 ∧ s2 = '-' ∧
      isAsciiDigit d1 ∧ isAsciiDigit d2
  | _ => false

def isoShape (s : String) : Bool :=
  isoShapeChars s.data

/-- `${v.slice(0,4)}-${v.slice(4,6)}-${v.slice(6,8)}` for an 8-character
string. -/
def dashedOf (l : List Char) : String :=
  String.mk (l.take 4 ++ '-' :: ((l.drop 4).take 2 ++ '-' :: (l.drop 6).take 2))

/-- The shared date-normalizer body (`getDate` lines 211–214 /
`parseRuleDate` lines 43–46 of `fetch_company_holidays.mjs`). -/
def normalizeDate (v : String) : String :=
  let w := stripTAux v.data
  if isEightDigits w then dashedOf w
  else if isoShapeChars w then String.mk w
  else ""

/-- `parseRuleDate` (the `!v` guard catches the absent and the empty
string; an absent `UNTIL` is passed as the empty string by the caller
model). -/
def parseRuleDate (v : String) : String :=
  if v = "" then "" else normalizeDate v

/-- The tail of `getDate` once the property chain has produced `d`:
unwrap a one-level array, drop falsy values, stringify and normalize. -/
def getDateFrom : Option JVal → String
  | none => ""
  | some dv =>
    let v : Option JVal :=
      match dv with
      | .arr xs => xs.head?
      | w => some w
    match v with
    | none => ""
    | some w => if jsTruthy w then normalizeDate (jsToString w) else ""

/-- `getDate` from `get1823List`. -/
def getDate (item : JVal) : String :=
  getDateFrom (firstTruthyField item
    ["date", "dtstart", "dtstart;value=date", "DTSTART", "DTSTART;VALUE=DATE"])

/-- `getName` (both language branches of the source are literally the same
lookup chain).  `normalize(v)` is `(v || '').trim()`, which throws a
`TypeError` when the selected value is truthy but not a string. -/
def getName (item : JVal) : Except String String :=
  let key := firstTruthyField item ["title", "summary", "name", "SUMMARY"]
  let v : Option JVal :=
    match key with
    | some (.arr xs) => xs.head?
    | some w => some w
    | none => none
  match v with
  | none => .ok ""
  | some w =>
    if jsTruthy w then
      match w with
      | .str s => .ok (jsTrim s)
      | _ => .error "TypeError: v.trim is not a function"
    else .ok ""

/-- The holiday record produced by `fetch_company_holidays.mjs`. -/
structure Holiday where
  date : String
  name_en : String
  name_zh : String
  statutory : Bool
  source : String
deriving DecidableEq, Repr

/-! ### RRULE parsing and expansion -/

def START_YEAR : Nat := 2017
def END_YEAR : Nat := 2026

def upperStr (s : String) : String :=
  String.mk (s.data.map Char.toUpper)

def lowerStr (s : String) : String :=
  String.mk (s.data.map Char.toLower)

/-- `parseRRule`: split on `;`, each part on `=` (`k` is the first chunk,
`v` the second), keep the truthy pairs, uppercase the key.  Assignments to
a JS object are modelled by keeping the whole assignment list; a lookup
takes the last assignment. -/
def parseRRule (s : String) : List (String × String) :=
  (splitOnChar ';' s.data).filterMap (fun p =>
    let parts := splitOnChar '=' p
    let k := parts.headD []
    match parts.get? 1 with
    | some v => if k ≠ [] ∧ v ≠ [] then some (upperStr (String.mk k), String.mk v) else none
    | none => none)

/-- `rule.KEY`: the last assignment wins. -/
def ruleLookup (rule : List (String × String)) (k : String) : Option String :=
  rule.reverse.lookup k

/-- `Number(s)` for the integral strings this program feeds it; `NaN` is
collapsed to `0` (no theorem below depends on a non-numeric or fractional
`BYMONTH`/`BYMONTHDAY`/`BYSETPOS` value). -/
def jsNumber (s : String) : Int :=
  let t := trimChars s.data
  match t with
  | [] => 0
  | '-' :: ds => if ds ≠ [] ∧ ds.all isAsciiDigit then -(digitsToNat ds : Int) else 0
  | '+' :: ds => if ds ≠ [] ∧ ds.all isAsciiDigit then (digitsToNat ds : Int) else 0
  | ds => if ds.all isAsciiDigit then (digitsToNat ds : Int) else 0

def jsNumbersOf (s : String) : List Int :=
  (splitOnChar ',' s.data).map (fun l => jsNumber (String.mk l))

def WEEKDAYS : List String := ["SU", "MO", "TU", "WE", "TH", "FR", "SA"]

/-- `nthWeekday` from the source: day of month of the `n`-th (`n < 0`:
from the end) weekday of the month, `none` when it does not exist. -/
def nthWeekday (year m : Int) (weekday : Nat) (n : Int) : Option Int :=
  if n = 0 then none
  else if n > 0 then
    let firstDow := dayOfWeekUTC year m 1
    let offset : Int := ((weekday : Int) - firstDow + 7).emod 7
    let day := 1 + offset + 7 * (n - 1)
    let last : Int := daysInMonthZ year m
    if day ≤ last then some day else none
  else
    let last : Int := daysInMonthZ year m
    let lastDow := dayOfWeekUTC year m last
    let offset : Int := ((lastDow : Int) - weekday + 7).emod 7
    let day := last - offset + 7 * (n + 1)
    if day ≥ 1 then some day else none

/-- `allWeekdays`: every day of the month falling on the given weekday. -/
def allWeekdays (y m : Int) (weekday : Nat) : List Int :=
  let firstDow := dayOfWeekUTC y m 1
  let offset : Int := ((weekday : Int) - firstDow + 7).emod 7
  let start := 1 + offset
  let last : Int := daysInMonthZ y m
  if start > last then []
  else (List.range ((last - start).toNat / 7 + 1)).map (fun k => start + 7 * (k : Int))

def upperAZ (c : Char) : Bool :=
  'A' ≤ c ∧ c ≤ 'Z'

/-- One backtracking step of `/(-?\d+)?([A-Z]{2})/` at a fixed position:
try a digit run of exactly `k` digits (with the optional leading sign)
followed by two uppercase letters. -/
def byDayTryLen (signed : Bool) (ds rest : List Char) (k : Nat) :
    Option (Option Int × String) :=
  match rest.drop k with
  | c1 :: c2 :: _ =>
    if upperAZ c1 ∧ upperAZ c2 ∧ k ≤ ds.length ∧ 1 ≤ k then
      let n : Int := digitsToNat (ds.take k)
      some (some (if signed then -n else n), String.mk [c1, c2])
    else none
  | _ => none

/-- Greedy backtracking over the digit-run length, longest first. -/
def byDayDescend (signed : Bool) (ds rest : List Char) : Nat → Option (Option Int × String)
  | 0 => none
  | k + 1 => (byDayTryLen signed ds rest (k + 1)).orElse (fun _ => byDayDescend signed ds rest k)

/-- `/(-?\d+)?([A-Z]{2})/` matched at one position (the head of `l`). -/
def byDayMatchAt (l : List Char) : Option (Option Int × String) :=
  let signed := l.headD ' ' = '-'
  let rest := if signed then l.tail else l
  let ds := rest.takeWhile isAsciiDigit
  (byDayDescend signed ds rest ds.length).orElse (fun _ =>
    match l with
    | c1 :: c2 :: _ =>
      if upperAZ c1 ∧ upperAZ c2 then some (none, String.mk [c1, c2]) else none
    | _ => none)

/-- Unanchored regex search: first position (left to right) at which
`/(-?\d+)?([A-Z]{2})/` matches. -/
def byDayFind : List Char → Option (Option Int × String)
  | [] => none
  | c :: rest => (byDayMatchAt (c :: rest)).orElse (fun _ => byDayFind rest)

/-- The days contributed by one `BYDAY` entry for a given year and month.
`match[1]` equal to `"0"` (or `"-0"`) parses to the falsy `0`, which like
an absent capture selects the all-weekdays branch. -/
def entryDays (y m : Int) (entry : String) : List Int :=
  match byDayFind entry.data with
  | none => []
  | some (nOpt, w2) =>
    match WEEKDAYS.findIdx? (fun x => x = w2) with
    | none => []
    | some w =>
      match nOpt with
      | some n =>
        if n ≠ 0 then
          match nthWeekday y m w n with
          | some d => [d]
          | none => []
        else allWeekdays y m w
      | none => allWeekdays y m w

def sortInts (l : List Int) : List Int :=
  List.insertionSort (fun a b : Int => a ≤ b) l

/-- `BYSETPOS` selection over the sorted candidate days. -/
def setPosSelect (positions : List Int) (tmp : List Int) : List Int :=
  positions.filterMap (fun pos =>
    let idx : Int := if pos > 0 then pos - 1 else (tmp.length : Int) + pos
    if 0 ≤ idx ∧ idx < (tmp.length : Int) then tmp.get? idx.toNat else none)

/-- `new Date(base + 'T00:00:00').getUTCMonth() + 1` for the well-formed
`YYYY-MM-DD` strings `getDate` produces, in an environment whose local
time zone is UTC (a date-time literal without offset parses as local
time). -/
def baseMonthOf (base : String) : Int :=
  digitsToNat ((base.data.drop 5).take 2)

/-- `new Date(base + 'T00:00:00').getUTCDate()` under the same reading. -/
def baseDayOf (base : String) : Int :=
  digitsToNat ((base.data.drop 8).take 2)

/-- The month list of a yearly rule: `BYMONTH` values, or the base date's
month. -/
def ruleMonths (rule : List (String × String)) (base : String) : List Int :=
  match ruleLookup rule "BYMONTH" with
  | some s => jsNumbersOf s
  | none => [baseMonthOf base]

/-- The `UNTIL` bound, `''` when absent. -/
def ruleUntil (rule : List (String × String)) : String :=
  match ruleLookup rule "UNTIL" with
  | some s => parseRuleDate s
  | none => ""

/-- The candidate day list for year `y` and month `m`: `BYMONTHDAY`,
else `BYDAY` (sorted, with optional `BYSETPOS` selection), else the base
date's day. -/
def ruleDays (rule : List (String × String)) (base : String) (y m : Int) : List Int :=
  match ruleLookup rule "BYMONTHDAY" with
  | some s => jsNumbersOf s
  | none =>
    match ruleLookup rule "BYDAY" with
    | some s =>
      let entries := (splitOnChar ',' s.data).map String.mk
      let tmp := sortInts (entries.flatMap (entryDays y m))
      match ruleLookup rule "BYSETPOS" with
      | some ps => if tmp ≠ [] then setPosSelect (jsNumbersOf ps) tmp else tmp
      | none => tmp
    | none => [baseDayOf base]

def isoStr (y : Nat) (m d : Int) : String :=
  toString y ++ "-" ++ pad2 m ++ "-" ++ pad2 d

/-- `expandRRule`: non-`YEARLY` rules expand to nothing; a yearly rule is
expanded over `START_YEAR..END_YEAR`, month by month, dropping days that
fall outside the month and dates after `UNTIL`. -/
def expandRRule (ruleStr base : String) : List String :=
  let rule := parseRRule ruleStr
  if ruleLookup rule "FREQ" ≠ some "YEARLY" then []
  else
    let untilStr := ruleUntil rule
    (List.range' START_YEAR (END_YEAR + 1 - START_YEAR)).flatMap (fun y =>
      (ruleMonths rule base).flatMap (fun m =>
        let last : Int := daysInMonthZ (y : Int) m
        (ruleDays rule base (y : Int) m).filterMap (fun d =>
          if d < 1 ∨ d > last then none
          else
            let iso := isoStr y m d
            if untilStr = "" ∨ strLe iso untilStr then some iso else none)))

/-! ### Per-event date expansion (`expandDates`) -/

/-- `getDate({ date: Array.isArray(d) ? d[0] : d })` for one
`RDATE`/`EXDATE` entry. -/
def rdEntryDate (d : JVal) : String :=
  getDateFrom
    (match d with
     | .arr xs => xs.head?
     | w => some w)

/-- The normalized dates contributed by an `RDATE`/`EXDATE` value (the
empty normalizations are skipped by the `continue`). -/
def addDatesVals (v : Option JVal) : List String :=
  match v with
  | none => []
  | some val =>
    ((match val with
      | .arr xs => xs
      | w => [w]).map rdEntryDate).filter (fun s => s ≠ "")

def rruleValOf (item : JVal) : Option JVal :=
  firstTruthyField item ["rrule", "RRULE"]

def rdatesOf (item : JVal) : List String :=
  addDatesVals (firstTruthyField item ["rdate", "RDATE"])

def exdatesOf (item : JVal) : List String :=
  addDatesVals (firstTruthyField item ["exdate", "EXDATE"])

/-- `expandDates`: the base date, plus the rule expansion, plus `RDATE`,
minus `EXDATE`, as an insertion-ordered set. -/
def expandDates (item : JVal) : List String :=
  let base := getDate item
  if base = "" then []
  else
    let s1 :=
      match rruleValOf item with
      | none => [base]
      | some rv => (expandRRule (jsToString rv) base).foldl setAdd [base]
    let s2 := (rdatesOf item).foldl setAdd s1
    (exdatesOf item).foldl setDel s2

/-! ### Merging the English and Chinese feeds (`get1823List`) -/

/-- JS `map.set(k, v)` / `obj[k] = v`: replace in place when the key is
present (iteration order keeps the original position), append otherwise. -/
def assocSet {α : Type} (m : List (String × α)) (k : String) (v : α) : List (String × α) :=
  if m.any (fun p => p.1 = k) then m.map (fun p => if p.1 = k then (k, v) else p)
  else m ++ [(k, v)]

abbrev HolMap := List (String × Holiday)

def holLe (a b : Holiday) : Prop :=
  strLe a.date b.date = true

instance : DecidableRel holLe := fun a b => by unfold holLe; infer_instance

instance : IsTotal Holiday holLe :=
  ⟨fun a b => lexLeB_total a.date.data b.date.data⟩

instance : IsTrans Holiday holLe :=
  ⟨fun a b c => lexLeB_trans a.date.data b.date.data c.date.data⟩

/-- `out.sort((a, b) => a.date.localeCompare(b.date))`: a stable sort by
date. -/
def sortHol (l : List Holiday) : List Holiday :=
  List.insertionSort holLe l

/-- `parseInt(date.slice(0, 4), 10)` is within `START_YEAR..END_YEAR`
(`NaN` fails both comparisons). -/
def dateYearInRange (s : String) : Bool :=
  match parseIntLeading (String.mk (s.data.take 4)) with
  | none => false
  | some y => START_YEAR ≤ y ∧ y ≤ END_YEAR

/-- The year filter of `get1823List` applied to a record. -/
def yearInRange (h : Holiday) : Bool :=
  dateYearInRange h.date

/-- The body of one `for (const item of en/zh)` iteration: every expanded
date receives (a copy of) the record with the looked-up name filled in.
`getName` is evaluated inside the date loop, so it can only throw when the
event contributed at least one date. -/
def passDates (isEn : Bool) (item : JVal) (m : HolMap) : Except String HolMap :=
  (expandDates item).foldlM (fun m date => do
    let nm ← getName item
    let target := (m.lookup date).getD ⟨date, "", "", false, "1823"⟩
    let target :=
      if isEn then { target with name_en := nm } else { target with name_zh := nm }
    pure (assocSet m date target)) m

/-- Lines 255–290 of `fetch_company_holidays.mjs`: fold both event lists
into the date-keyed map, keep the values whose year parses into range, and
sort by date. -/
def get1823Core (en zh : List JVal) : Except String (List Holiday) := do
  let m1 ← en.foldlM (fun m item => passDates true item m) ([] : HolMap)
  let m2 ← zh.foldlM (fun m item => passDates false item m) m1
  pure (sortHol ((m2.map Prod.snd).filter yearInRange))

/-! ### Event extraction (`extractEvents`) -/

/-- The prop-list-to-object conversion for the jCal array format
(`const [name, , , value] = p; obj[name.toLowerCase()] = value`).  A
truthy non-string property name makes `name.toLowerCase()` throw a
`TypeError` that nothing in the script catches. -/
def propsToObj (props : List JVal) : Except String JVal := do
  let fs ← props.foldlM (fun (fs : List (String × JVal)) p => do
    match p with
    | .arr pa =>
      let name := pa.headD .null
      let value := pa.getD 3 .null
      if jsTruthy name then
        match name with
        | .str s => pure (assocSet fs (lowerStr s) value)
        | _ => throw "TypeError: name.toLowerCase is not a function"
      else pure fs
    | _ => pure fs) []
  pure (.obj fs)

/-- `l[0] === t` for a string literal `t`. -/
def headIsStr (l : List JVal) (t : String) : Bool :=
  match l.head? with
  | some (.str s) => s = t
  | _ => false

/-- `extractEvents` from `fetch_company_holidays.mjs` (lines 170–199):
falsy data gives no events; a jCal array (`['vcalendar', props,
components]`) maps its `vevent` components through `propsToObj`; any other
array is returned as the event list; an object with a `vcalendar` array
yields `vcalendar[0].vevent` when that is an array; anything else gives no
events. -/
def extractEvents (data : JVal) : Except String (List JVal) :=
  if ¬ jsTruthy data then pure []
  else
    match data with
    | .arr xs =>
      if headIsStr xs "vcalendar" then
        let components :=
          match xs.get? 2 with
          | some (.arr cs) => cs
          | _ => []
        (components.filter (fun c =>
          match c with
          | .arr ca => headIsStr ca "vevent"
          | _ => false)).mapM (fun c =>
            match c with
            | .arr ca =>
              propsToObj
                (match ca.get? 1 with
                 | some (.arr ps) => ps
                 | _ => [])
            | _ => propsToObj [])
      else pure xs
    | .obj fs =>
      match fs.lookup "vcalendar" with
      | some (.arr cals) =>
        let cal0 :=
          match cals.head? with
          | some c => if jsTruthy c then c else .obj []
          | none => .obj []
        match cal0 with
        | .obj cfs =>
          match cfs.lookup "vevent" with
          | some (.arr evs) => pure evs
          | _ => pure []
        | _ => pure []
      | _ => pure []
    | _ => pure []

/-- `get1823List` as a function of the two parsed feed files (`null` for a
missing or unparseable file). -/
def get1823 (enRaw zhRaw : JVal) : Except String (List Holiday) := do
  let en ← extractEvents enRaw
  let zh ← extractEvents zhRaw
  get1823Core en zh

/-! ### The `main` pipeline of `fetch_company_holidays.mjs`

`byYear` groups the merged list by `h.date.slice(0, 4)`; `Object.keys`
followed by `.sort()` yields the year keys in string order; when
`--statutory` is given each year's list gets its `statutory` flags set
from the scraped set; each list is sorted and written, and the `ALL` file
is the concatenation of the per-year lists in year order. -/

def yearKey (h : Holiday) : String :=
  String.mk (h.date.data.take 4)

def sLe (a b : String) : Prop :=
  strLe a b = true

instance : DecidableRel sLe := fun a b => by unfold sLe; infer_instance

instance : IsTotal String sLe :=
  ⟨fun a b => lexLeB_total a.data b.data⟩

instance : IsTrans String sLe :=
  ⟨fun a b c => lexLeB_trans a.data b.data c.data⟩

def sortStrs (l : List String) : List String :=
  List.insertionSort sLe l

/-- `process.argv.includes('--statutory')`. -/
def INCLUDE_STATUTORY (argv : List String) : Bool :=
  argv.contains "--statutory"

/-- `Object.keys(byYear).sort()`. -/
def yearsOf (all : List Holiday) : List String :=
  sortStrs (dedupFirst (all.map yearKey))

/-- `byYear[y]` before the statutory pass. -/
def perYearList (all : List Holiday) (y : String) : List Holiday :=
  all.filter (fun h => yearKey h = y)

/-- `list.forEach(h => { h.statutory = stats.has(h.date); })`. -/
def applyStatutory (stats : List String) (l : List Holiday) : List Holiday :=
  l.map (fun h => { h with statutory := stats.contains h.date })

/-- The per-year list as written to `company_holidays_Y.json`: statutory
pass (only under the flag), then `sort`. -/
def perYearFinal (includeStat : Bool) (stats : String → List String)
    (all : List Holiday) (y : String) : List Holiday :=
  sortHol (if includeStat then applyStatutory (stats y) (perYearList all y)
           else perYearList all y)

/-- `years.flatMap(y => byYear[y])`, the content of
`company_holidays_ALL.json` (the arrays were sorted in place inside the
loop). -/
def allYearsList (includeStat : Bool) (stats : String → List String)
    (all : List Holiday) : List Holiday :=
  (yearsOf all).flatMap (perYearFinal includeStat stats all)

/-! ### `fetchSafe` from `generate.js` (lines 80–98)

The sequence of network outcomes is abstracted as
`outcome : Nat → Option String` (the payload successfully fetched and
parsed on a given attempt, `none` for any failure: non-ok status, abort
on timeout, network or JSON-parse error), and `Math.random() * 300` as
`jitter : Nat → Nat`.  The function returns the result, the list of
back-off delays slept between attempts, and the number of attempts
made. -/

def fetchSafeAux (outcome : Nat → Option String) (jitter : Nat → Nat) :
    Nat → Nat → Option String × List Nat × Nat
  | _, 0 => (none, [], 0)
  | attempt, fuel + 1 =>
    match outcome attempt with
    | some body => (some body, [], 1)
    | none =>
      if fuel = 0 then (none, [], 1)
      else
        let r := fetchSafeAux outcome jitter (attempt + 1) fuel
        (r.1, (500 * attempt + jitter attempt) :: r.2.1, r.2.2 + 1)

/-- `fetchSafe(url, type, tries, timeoutMs)` with attempts numbered from
1. -/
def fetchSafeRun (outcome : Nat → Option String) (jitter : Nat → Nat)
    (tries : Nat) : Option String × List Nat × Nat :=
  fetchSafeAux outcome jitter 1 tries

/-- The value returned in `type === 'json'` mode (`null` on failure). -/
def fetchSafeJson (outcome : Nat → Option String) (jitter : Nat → Nat)
    (tries : Nat) : Option String :=
  (fetchSafeRun outcome jitter tries).1

/-- The value returned in text mode (`''` on failure). -/
def fetchSafeText (outcome : Nat → Option String) (jitter : Nat → Nat)
    (tries : Nat) : String :=
  match (fetchSafeRun outcome jitter tries).1 with
  | some body => body
  | none => ""

/-- The default retry count of `fetchSafe`. -/
def fetchSafeDefaultTries : Nat := 3

/-! ### `parseISODate` and the statutory-date scrape
(`fetch_company_holidays.mjs` lines 293–339) -/

def monthPairs : List (String × Nat) :=
  [("January", 1), ("February", 2), ("March", 3), ("April", 4), ("May", 5),
   ("June", 6), ("July", 7), ("August", 8), ("September", 9),
   ("October", 10), ("November", 11), ("December", 12)]

def monthAlt : List String :=
  monthPairs.map Prod.fst

/-- Case-insensitive prefix test, one character at a time (the `i` flag). -/
def startsWithCI : List Char → List Char → Bool
  | [], _ => true
  | _ :: _, [] => false
  | p :: ps, c :: cs => Char.toLower p = Char.toLower c ∧ startsWithCI ps cs

/-- The month-name alternation, tried in source order; the capture is the
text as it appears in the input. -/
def matchMonthAux : List String → List Char → Option (String × List Char)
  | [], _ => none
  | nm :: rest, l =>
    if startsWithCI nm.data l then
      some (String.mk (l.take nm.data.length), l.drop nm.data.length)
    else matchMonthAux rest l

/-- `s.padStart(2, '0')`. -/
def padStart2 (s : String) : String :=
  if s.data.length ≥ 2 then s
  else String.mk (List.replicate (2 - s.data.length) '0' ++ s.data)

/-- `/(\d{1,2})\s+(January|...|December)\s*(\d{4})?/i` matched at one
position with a day-digit run of exactly `k` (the regex tries `k = 2`
before `k = 1`): returns (day digits, month text, optional year
digits). -/
def engTryDay (l : List Char) (k : Nat) : Option (String × String × Option String) :=
  let ds := l.take k
  if ds.length = k ∧ ds.all isAsciiDigit then
    let rest := l.drop k
    let ws := rest.takeWhile jsWhitespace
    if ws = [] then none
    else
      match matchMonthAux monthAlt (rest.drop ws.length) with
      | none => none
      | some (mtext, rest2) =>
        let rest3 := rest2.drop (rest2.takeWhile jsWhitespace).length
        let y4 := rest3.take 4
        if y4.length = 4 ∧ y4.all isAsciiDigit then
          some (String.mk ds, mtext, some (String.mk y4))
        else some (String.mk ds, mtext, none)
  else none

/-- Unanchored search for the English-date regex. -/
def engDateFind : List Char → Option (String × String × Option String)
  | [] => none
  | c :: rest =>
    (engTryDay (c :: rest) 2).orElse (fun _ =>
      (engTryDay (c :: rest) 1).orElse (fun _ => engDateFind rest))

/-- `/(\d{4})-(\d{2})-(\d{2})/` matched at one position. -/
def isoSearchAt (l : List Char) : Option String :=
  let y4 := l.take 4
  if y4.length = 4 ∧ y4.all isAsciiDigit then
    match l.drop 4 with
    | '-' :: rest5 =>
      let m2 := rest5.take 2
      if m2.length = 2 ∧ m2.all isAsciiDigit then
        match rest5.drop 2 with
        | '-' :: rest8 =>
          let d2 := rest8.take 2
          if d2.length = 2 ∧ d2.all isAsciiDigit then
            some (String.mk (y4 ++ '-' :: (m2 ++ '-' :: d2)))
          else none
        | _ => none
      else none
    | _ => none
  else none

/-- Unanchored search for the ISO-date regex. -/
def isoSearch : List Char → Option String
  | [] => none
  | c :: rest => (isoSearchAt (c :: rest)).orElse (fun _ => isoSearch rest)

/-- `/(\d{1,2})月(\d{1,2})日/` matched at one position with a month-digit
run of exactly `k`. -/
def cnTryAt (l : List Char) (k : Nat) : Option (String × String) :=
  let ms := l.take k
  if ms.length = k ∧ ms.all isAsciiDigit then
    match l.drop k with
    | c :: rest =>
      if c = '月' then
        let tryDay : Nat → Option (String × String) := fun j =>
          let ds := rest.take j
          if ds.length = j ∧ ds.all isAsciiDigit then
            match rest.drop j with
            | c2 :: _ => if c2 = '日' then some (String.mk ms, String.mk ds) else none
            | _ => none
          else none
        (tryDay 2).orElse (fun _ => tryDay 1)
      else none
    | _ => none
  else none

/-- Unanchored search for the Chinese-date regex. -/
def cnFind : List Char → Option (String × String)
  | [] => none
  | c :: rest =>
    (cnTryAt (c :: rest) 2).orElse (fun _ =>
      (cnTryAt (c :: rest) 1).orElse (fun _ => cnFind rest))

/-- `months[m[2]]` — a case-sensitive object lookup, even though the match
was case-insensitive; a capitalization mismatch yields `undefined`, which
stringifies to `"undefined"`. -/
def monthNumRendered (mtext : String) : String :=
  match monthPairs.lookup mtext with
  | some n => toString n
  | none => "undefined"

/-- `parseISODate(text, year)`: the three regex branches in source order.
No range validation is performed on any branch. -/
def parseISODate (text : String) (year : Nat) : String :=
  if text = "" then ""
  else
    match engDateFind text.data with
    | some (day, mtext, yOpt) =>
      let y := match yOpt with
        | some ys => ys
        | none => toString year
      y ++ "-" ++ padStart2 (monthNumRendered mtext) ++ "-" ++ padStart2 day
    | none =>
      match isoSearch text.data with
      | some iso => iso
      | none =>
        match cnFind text.data with
        | some (mo, da) => toString year ++ "-" ++ padStart2 mo ++ "-" ++ padStart2 da
        | none => ""

/-- The set built by `getStatutoryDates` from the cleaned texts of the
scraped `li, td, tr, p` elements: each text is parsed and added when it
passes the `\d{4}-\d{2}-\d{2}` shape test. -/
def statutoryFromTexts (texts : List String) (year : Nat) : List String :=
  texts.foldl (fun acc t =>
    let iso := parseISODate t year
    if isoShape iso then setAdd acc iso else acc) []

/-- An actual calendar date in `YYYY-MM-DD` form (month 1..12, day within
the month) — the property `parseISODate` does not enforce. -/
def isValidCalendarDate (s : String) : Bool :=
  isoShape s ∧
    (let y : Int := digitsToNat (s.data.take 4)
     let m := digitsToNat ((s.data.drop 5).take 2)
     let d := digitsToNat ((s.data.drop 8).take 2)
     1 ≤ m ∧ m ≤ 12 ∧ 1 ≤ d ∧ d ≤ daysInMonthCore y m)

/-! ### `generate.js`: `mergeAndMark` and the final de-dup filter -/

structure GenSource where
  kind : String
  url : String
deriving DecidableEq, Repr

/-- The record shape built by `generate.js` (`types` is inlined as the two
boolean fields). -/
structure GenHoliday where
  date : String
  name_en : String
  name_zh : String
  general_holiday : Bool
  statutory_holiday : Bool
  sources : List GenSource
deriving DecidableEq, Repr

def genHolLe (a b : GenHoliday) : Prop :=
  strLe a.date b.date = true

instance : DecidableRel genHolLe := fun a b => by unfold genHolLe; infer_instance

instance : IsTotal GenHoliday genHolLe :=
  ⟨fun a b => lexLeB_total a.date.data b.date.data⟩

instance : IsTrans GenHoliday genHolLe :=
  ⟨fun a b c => lexLeB_trans a.date.data b.date.data c.date.data⟩

def sortGen (l : List GenHoliday) : List GenHoliday :=
  List.insertionSort genHolLe l

/-- `mergeAndMark(generalList, statutoryDates)` (`generate.js` lines
286–300): group by date (`Object.groupBy` keeps first-occurrence key
order), re-mark every grouped record, append statutory-only records for
set dates without a group, and sort by date. -/
def mergeAndMark (generalList : List GenHoliday) (statutoryDates : List String) :
    List GenHoliday :=
  let keys := dedupFirst (generalList.map (fun x => x.date))
  let grouped := keys.flatMap (fun d =>
    (generalList.filter (fun x => x.date = d)).map (fun item =>
      { item with
        general_holiday := true
        statutory_holiday := statutoryDates.contains item.date }))
  let extra := (statutoryDates.filter (fun d =>
      ¬ generalList.any (fun x => x.date = d))).map (fun d =>
    { date := d, name_en := "", name_zh := "", general_holiday := false,
      statutory_holiday := true, sources := [] })
  sortGen (grouped ++ extra)

/-- The key of the final de-dup filter (`generate.js` lines 331–336):
`${date}|${name_en}|${name_zh}|${general_holiday}|${statutory_holiday}`. -/
def dedupKey (h : GenHoliday) : String :=
  h.date ++ "|" ++ h.name_en ++ "|" ++ h.name_zh ++ "|" ++
    toString h.general_holiday ++ "|" ++ toString h.statutory_holiday

def dedupFinalAux (seen : List String) : List GenHoliday → List GenHoliday
  | [] => []
  | h :: t =>
    if dedupKey h ∈ seen then dedupFinalAux seen t
    else h :: dedupFinalAux (dedupKey h :: seen) t

/-- The `seen`-set filter producing `final` in `generate.js`. -/
def dedupFinal (l : List GenHoliday) : List GenHoliday :=
  dedupFinalAux [] l

/-! ## Claim C9 -/

/-- C9: `parseISODate` validates no ranges: the Chinese-format branch maps
`13月40日` with year 2024 to `2024-13-40`.  That string passes the
`/^\d{4}-\d{2}-\d{2}$/` gate in `getStatutoryDates` even though it is not
a calendar date, so the statutory date set can contain such non-dates. -/
theorem c9_parseISODate_unvalidated :
    parseISODate "13月40日" 2024 = "2024-13-40" ∧
    isoShape "2024-13-40" = true ∧
    isValidCalendarDate "2024-13-40" = false ∧
    statutoryFromTexts ["13月40日"] 2024 = ["2024-13-40"] := by
  refine ⟨by decide, by decide, by decide, by decide⟩

/-! ## Claim C8 -/

theorem fetchSafeAux_count_le (outcome : Nat → Option String) (jitter : Nat → Nat) :
    ∀ (fuel attempt : Nat), (fetchSafeAux outcome jitter attempt fuel).2.2 ≤ fuel
  | 0, _ => Nat.le_refl 0
  | fuel + 1, attempt => by
    simp only [fetchSafeAux]
    cases outcome attempt with
    | some body => simp
    | none =>
      by_cases hf : fuel = 0
      · simp [hf]
      · simp only [if_neg hf]
        exact Nat.succ_le_succ (fetchSafeAux_count_le outcome jitter fuel (attempt + 1))

theorem fetchSafeAux_all_fail (outcome : Nat → Option String) (jitter : Nat → Nat) :
    ∀ (fuel attempt : Nat),
      (∀ i, attempt ≤ i → i < attempt + fuel → outcome i = none) →
      fetchSafeAux outcome jitter attempt fuel =
        (none, (List.range' attempt (fuel - 1)).map (fun i => 500 * i + jitter i), fuel)
  | 0, attempt, _ => by simp [fetchSafeAux]
  | fuel + 1, attempt, h => by
    have hout : outcome attempt = none :=
      h attempt (Nat.le_refl _) (by omega)
    simp only [fetchSafeAux, hout]
    by_cases hf : fuel = 0
    · subst hf
      simp
    · simp only [if_neg hf]
      rw [fetchSafeAux_all_fail outcome jitter fuel (attempt + 1)
        (fun i h1 h2 => h i (by omega) (by omega))]
      obtain ⟨k, hk⟩ : ∃ k, fuel = k + 1 := ⟨fuel - 1, by omega⟩
      subst hk
      simp [List.range'_succ]

/-- C8: `fetchSafe` makes at most `tries` attempts; when every attempt
fails it sleeps `500 * attempt + jitter` between consecutive attempts (the
linearly growing backoff) and returns `null` in json mode and `''` in text
mode instead of throwing.  The default retry count is 3. -/
theorem c8_fetchSafe_retry (outcome : Nat → Option String) (jitter : Nat → Nat)
    (tries : Nat) :
    (fetchSafeRun outcome jitter tries).2.2 ≤ tries ∧
    fetchSafeDefaultTries = 3 ∧
    ((∀ i, 1 ≤ i → i ≤ tries → outcome i = none) →
      fetchSafeRun outcome jitter tries =
        (none, (List.range' 1 (tries - 1)).map (fun i => 500 * i + jitter i), tries) ∧
      fetchSafeJson outcome jitter tries = none ∧
      fetchSafeText outcome jitter tries = "") := by
  refine ⟨fetchSafeAux_count_le outcome jitter tries 1, rfl, fun h => ?_⟩
  have hrun : fetchSafeRun outcome jitter tries =
      (none, (List.range' 1 (tries - 1)).map (fun i => 500 * i + jitter i), tries) :=
    fetchSafeAux_all_fail outcome jitter tries 1 (fun i h1 h2 => h i h1 (by omega))
  refine ⟨hrun, ?_, ?_⟩
  · simp [fetchSafeJson, hrun]
  · simp [fetchSafeText, hrun]

/-- Witness for C8 at `tries = 3` with all attempts failing and zero
jitter: exactly 3 attempts, delays 500 and 1000, and the null/empty
results. -/
theorem c8_fetchSafe_retry_witness :
    (fetchSafeRun (fun _ => none) (fun _ => 0) 3).2.2 ≤ 3 ∧
    fetchSafeDefaultTries = 3 ∧
    (fetchSafeRun (fun _ => none) (fun _ => 0) 3 =
      (none, (List.range' 1 2).map (fun i => 500 * i + 0), 3) ∧
    fetchSafeJson (fun _ => none) (fun _ => 0) 3 = none ∧
    fetchSafeText (fun _ => none) (fun _ => 0) 3 = "") :=
  ⟨(c8_fetchSafe_retry (fun _ => none) (fun _ => 0) 3).1,
   (c8_fetchSafe_retry (fun _ => none) (fun _ => 0) 3).2.1,
   (c8_fetchSafe_retry (fun _ => none) (fun _ => 0) 3).2.2 (fun _ _ _ => rfl)⟩

/-! ## Claim C10 -/

theorem expandRRule_freq_not_yearly (ruleStr base : String)
    (h : ruleLookup (parseRRule ruleStr) "FREQ" ≠ some "YEARLY") :
    expandRRule ruleStr base = [] := by
  unfold expandRRule
  rw [if_pos h]

/-- C10: a rule whose `FREQ` is not `YEARLY` expands to the empty list,
so an event carrying such a rule contributes exactly its base date plus
the `RDATE` dates minus the `EXDATE` dates. -/
theorem c10_nonyearly_rule_contributes_base_only :
    (∀ ruleStr base : String,
      ruleLookup (parseRRule ruleStr) "FREQ" ≠ some "YEARLY" →
      expandRRule ruleStr base = []) ∧
    (∀ (item rv : JVal) (x : String),
      rruleValOf item = some rv →
      ruleLookup (parseRRule (jsToString rv)) "FREQ" ≠ some "YEARLY" →
      getDate item ≠ "" →
      (x ∈ expandDates item ↔
        (x = getDate item ∨ x ∈ rdatesOf item) ∧ x ∉ exdatesOf item)) := by
  refine ⟨expandRRule_freq_not_yearly, ?_⟩
  intro item rv x hrv hfreq hbase
  unfold expandDates
  rw [if_neg hbase, hrv]
  simp only [expandRRule_freq_not_yearly _ _ hfreq, List.foldl_nil]
  rw [mem_foldl_setDel, mem_foldl_setAdd]
  simp

/-- Witness event for C10: a `MONTHLY` rule with base date 2024-06-01, an
`RDATE` adding 2024-07-02 and an `EXDATE` removing the base date. -/
def c10Item : JVal :=
  .obj [("date", .str "2024-06-01"),
        ("rrule", .str "FREQ=MONTHLY;BYMONTHDAY=1"),
        ("rdate", .arr [.str "20240702", .str "20240601"]),
        ("exdate", .str "20240601"),
        ("title", .str "Test")]

theorem c10_nonyearly_rule_witness :
    expandRRule "FREQ=MONTHLY;BYMONTHDAY=1" "2024-06-01" = [] ∧
    ("2024-07-02" ∈ expandDates c10Item ↔
      (("2024-07-02" = getDate c10Item ∨ "2024-07-02" ∈ rdatesOf c10Item) ∧
        "2024-07-02" ∉ exdatesOf c10Item)) :=
  ⟨c10_nonyearly_rule_contributes_base_only.1 _ _ (by decide),
   c10_nonyearly_rule_contributes_base_only.2 c10Item
     (.str "FREQ=MONTHLY;BYMONTHDAY=1") "2024-07-02" rfl (by decide) (by decide)⟩

/-! ## Claim C3 -/

/-- An event whose date normalizes to `''` expands to no dates. -/
theorem expandDates_of_no_date (item : JVal) (h : getDate item = "") :
    expandDates item = [] := by
  simp [expandDates, h]

/-- An event whose date normalizes to `''` leaves the merge map (and hence
the output) untouched. -/
theorem passDates_of_no_date (isEn : Bool) (m : HolMap) (item : JVal)
    (h : getDate item = "") : passDates isEn item m = Except.ok m := by
  simp only [passDates, expandDates_of_no_date item h, List.foldlM_nil]
  rfl

theorem digit_ne_T {c : Char} (h : isAsciiDigit c = true) : c ≠ 'T' := by
  intro hc
  subst hc
  revert h
  decide

theorem stripTAux_of_no_T : ∀ l : List Char, (∀ c ∈ l, c ≠ 'T') → stripTAux l = l
  | [], _ => rfl
  | c :: cs, h => by
    have hc : c ≠ 'T' := h c (List.mem_cons_self _ _)
    simp only [stripTAux, if_neg (fun hand : c = 'T' ∧ _ => hc hand.1)]
    rw [stripTAux_of_no_T cs (fun x hx => h x (List.mem_cons_of_mem _ hx))]

theorem stripTAux_append_T : ∀ (l₁ l₂ : List Char), (∀ c ∈ l₁, c ≠ 'T') →
    (∀ c ∈ l₂, jsLineTerm c = false) → stripTAux (l₁ ++ 'T' :: l₂) = l₁
  | [], l₂, _, h₂ => by
    have hany : l₂.any jsLineTerm = false := by
      rw [List.any_eq_false]
      intro x hx
      simp [h₂ x hx]
    simp [stripTAux, hany]
  | c :: cs, l₂, h₁, h₂ => by
    have hc : c ≠ 'T' := h₁ c (List.mem_cons_self _ _)
    simp only [List.cons_append, stripTAux,
      if_neg (fun hand : c = 'T' ∧ _ => hc hand.1)]
    congr 1
    exact stripTAux_append_T cs l₂ (fun x hx => h₁ x (List.mem_cons_of_mem _ hx)) h₂

theorem isoShapeChars_no_T : ∀ l : List Char, isoShapeChars l = true → ∀ c ∈ l, c ≠ 'T'
  | [y1, y2, y3, y4, s1, m1, m2, s2, d1, d2], h, c, hc => by
    simp only [isoShapeChars, decide_eq_true_eq] at h
    obtain ⟨h1, h2, h3, h4, h5, h6, h7, h8, h9, h10⟩ := h
    simp only [List.mem_cons, List.not_mem_nil, or_false] at hc
    rcases hc with rfl | rfl | rfl | rfl | rfl | rfl | rfl | rfl | rfl | rfl
    · exact digit_ne_T h1
    · exact digit_ne_T h2
    · exact digit_ne_T h3
    · exact digit_ne_T h4
    · subst h5; decide
    · exact digit_ne_T h6
    · exact digit_ne_T h7
    · subst h8; decide
    · exact digit_ne_T h9
    · exact digit_ne_T h10

theorem isoShape_not_eight : ∀ l : List Char, isoShapeChars l = true → isEightDigits l = false
  | [_, _, _, _, _, _, _, _, _, _], _ => by simp [isEightDigits]

/-- C3 counterexample: `20241340` is neither a valid 8-digit date (there
is no month 13) nor a valid ISO date, so by the claim the normalizer
should return `''`; it returns `2024-13-40`. -/
theorem c3_normalizer_counterexample :
    normalizeDate "20241340" = "2024-13-40" ∧
    isValidCalendarDate "2024-13-40" = false ∧
    normalizeDate "20241340" ≠ "" := by
  refine ⟨by decide, by decide, by decide⟩

/-- C3 (amended): the normalizer is purely shape-driven — every 8-digit
string is reformatted with dashes and every `\d{4}-\d{2}-\d{2}` string
(optionally carrying a `T...` suffix free of line terminators) is returned
as the 10-character date, with no calendar validation; strings failing
both shape tests after the `T`-strip yield `''`; and an event whose date
normalizes to `''` is dropped (it expands to no dates and leaves the merge
map untouched). -/
theorem c3_normalizer_shape_driven :
    (∀ s : String, isEightDigits s.data = true → normalizeDate s = dashedOf s.data) ∧
    (∀ s : String, isoShapeChars s.data = true → normalizeDate s = s) ∧
    (∀ (pre : String) (rest : List Char), isoShapeChars pre.data = true →
      (∀ c ∈ rest, jsLineTerm c = false) →
      normalizeDate (String.mk (pre.data ++ 'T' :: rest)) = pre) ∧
    (∀ s : String, isEightDigits (stripTAux s.data) = false →
      isoShapeChars (stripTAux s.data) = false → normalizeDate s = "") ∧
    (∀ item : JVal, getDate item = "" →
      expandDates item = [] ∧
      ∀ (isEn : Bool) (m : HolMap), passDates isEn item m = Except.ok m) := by
  refine ⟨?_, ?_, ?_, ?_, ?_⟩
  · intro s h
    have hall : ∀ c ∈ s.data, c ≠ 'T' := by
      intro c hc
      have h2 := (by simpa [isEightDigits] using h :
        s.data.length = 8 ∧ ∀ c ∈ s.data, isAsciiDigit c = true)
      exact digit_ne_T (h2.2 c hc)
    simp only [normalizeDate, stripTAux_of_no_T s.data hall, h, if_true]
  · intro s h
    have hall : ∀ c ∈ s.data, c ≠ 'T' := isoShapeChars_no_T s.data h
    simp only [normalizeDate, stripTAux_of_no_T s.data hall, h,
      isoShape_not_eight s.data h, Bool.false_eq_true, if_false, if_true]
  · intro pre rest hpre hrest
    have hall : ∀ c ∈ pre.data, c ≠ 'T' := isoShapeChars_no_T pre.data hpre
    simp only [normalizeDate, stripTAux_append_T pre.data rest hall hrest, hpre,
      isoShape_not_eight pre.data hpre, Bool.false_eq_true, if_false, if_true]
  · intro s h8 hiso
    simp only [normalizeDate, h8, hiso, Bool.false_eq_true, if_false]
  · intro item h
    exact ⟨expandDates_of_no_date item h, fun isEn m => passDates_of_no_date isEn m item h⟩

/-- Witness for C3 at concrete inputs: an 8-digit date, an ISO date with
and without time suffix, a junk string, and a dateless event. -/
theorem c3_normalizer_shape_driven_witness :
    normalizeDate "20240101" = dashedOf "20240101".data ∧
    normalizeDate "2024-01-01" = "2024-01-01" ∧
    normalizeDate (String.mk ("2024-01-01".data ++ 'T' :: "00:00:00".data)) = "2024-01-01" ∧
    normalizeDate "garbage" = "" ∧
    expandDates (JVal.obj [("title", JVal.str "No date")]) = [] ∧
    passDates true (JVal.obj [("title", JVal.str "No date")]) [] = Except.ok [] := by
  refine ⟨c3_normalizer_shape_driven.1 "20240101" (by decide),
    c3_normalizer_shape_driven.2.1 "2024-01-01" (by decide),
    c3_normalizer_shape_driven.2.2.1 "2024-01-01" "00:00:00".data (by decide) (by decide),
    c3_normalizer_shape_driven.2.2.2.1 "garbage" (by decide) (by decide),
    (c3_normalizer_shape_driven.2.2.2.2 (JVal.obj [("title", JVal.str "No date")]) (by decide)).1,
    (c3_normalizer_shape_driven.2.2.2.2 (JVal.obj [("title", JVal.str "No date")]) (by decide)).2 true []⟩

/-! ## Claim C2 -/

theorem flatMap_eq_map_of_forall {α β : Type} (f : α → List β) (g : α → β) :
    ∀ l : List α, (∀ a ∈ l, f a = [g a]) → l.flatMap f = l.map g
  | [], _ => rfl
  | a :: as, h => by
    rw [List.flatMap_cons, List.map_cons, h a (List.mem_cons_self _ _),
      flatMap_eq_map_of_forall f g as (fun x hx => h x (List.mem_cons_of_mem _ hx))]
    rfl

/-- C2 counterexample: `FREQ=YEARLY;BYMONTH=2;BYMONTHDAY=30` fixes a
single month and a single day, yet `expandRRule` produces no date at all
(February has no day 30), not one date per year. -/
theorem c2_feb30_counterexample :
    expandRRule "FREQ=YEARLY;BYMONTH=2;BYMONTHDAY=30" "2024-02-01" = [] := by
  decide

/-- C2 (amended): a yearly rule with no `UNTIL` whose month list is the
single month `m` and whose day list is the single day `d`, where `1 ≤ d`
and `d` fits in month `m` of every year of the window, expands to exactly
the list of dates `y-m-d` for `y = START_YEAR..END_YEAR` — one date per
year, in order.  (Without the day-fits hypothesis the day is skipped in
the years it does not fit, and an `UNTIL` bound truncates the list.) -/
theorem c2_fixed_day_one_per_year (ruleStr base : String) (m d : Int)
    (hfreq : ruleLookup (parseRRule ruleStr) "FREQ" = some "YEARLY")
    (huntil : ruleLookup (parseRRule ruleStr) "UNTIL" = none)
    (hmonths : ruleMonths (parseRRule ruleStr) base = [m])
    (hdays : ∀ y mm : Int, ruleDays (parseRRule ruleStr) base y mm = [d])
    (hd1 : 1 ≤ d)
    (hdm : ∀ y : Nat, START_YEAR ≤ y → y ≤ END_YEAR → d ≤ (daysInMonthZ (y : Int) m : Int)) :
    expandRRule ruleStr base =
      (List.range' START_YEAR (END_YEAR + 1 - START_YEAR)).map (fun y => isoStr y m d) := by
  unfold expandRRule
  rw [if_neg (by simp [hfreq])]
  have huntil' : ruleUntil (parseRRule ruleStr) = "" := by
    simp [ruleUntil, huntil]
  rw [huntil', hmonths]
  apply flatMap_eq_map_of_forall
  intro y hy
  obtain ⟨i, hi, hyi⟩ := List.mem_range'.mp hy
  have hy1 : START_YEAR ≤ y := by omega
  have hy2 : y ≤ END_YEAR := by
    have : END_YEAR + 1 - START_YEAR = 10 := by decide
    omega
  have hfit := hdm y hy1 hy2
  simp only [List.flatMap_cons, List.flatMap_nil, List.append_nil, hdays,
    List.filterMap_cons, List.filterMap_nil]
  rw [if_neg (by omega)]
  simp

/-- Witness for C2 at `FREQ=YEARLY;BYMONTH=5;BYMONTHDAY=1`: one May 1st
per year, 2017 through 2026. -/
theorem c2_fixed_day_one_per_year_witness :
    expandRRule "FREQ=YEARLY;BYMONTH=5;BYMONTHDAY=1" "2024-05-01" =
      (List.range' START_YEAR (END_YEAR + 1 - START_YEAR)).map (fun y => isoStr y 5 1) :=
  c2_fixed_day_one_per_year "FREQ=YEARLY;BYMONTH=5;BYMONTHDAY=1" "2024-05-01" 5 1
    (by decide) (by decide) (by decide) (fun _ _ => rfl) (by decide)
    (fun y _ _ => by
      have h31 : daysInMonthZ (y : Int) 5 = 31 := by
        unfold daysInMonthZ normYM daysInMonthCore
        norm_num [show Int.toNat 4 = 4 from by decide]
      rw [h31]
      omega)

/-! ## Claim C4 -/

theorem okBind {ε α β : Type} (x : α) (f : α → Except ε β) :
    (Except.ok x : Except ε α) >>= f = f x := rfl

theorem okPure {ε α : Type} (x : α) : (pure x : Except ε α) = Except.ok x := rfl

/-- C4 counterexample: one English and one Chinese event carrying the same
date `2030-01-01` (both with non-empty titles) produce no merged record at
all — the year filter `START_YEAR..END_YEAR` drops the date — instead of
the one record the claim requires. -/
theorem c4_two_feeds_counterexample :
    get1823Core [JVal.obj [("date", JVal.str "2030-01-01"), ("title", JVal.str "New Year")]]
      [JVal.obj [("date", JVal.str "2030-01-01"), ("title", JVal.str "元旦")]] =
      Except.ok [] := by
  rfl

/-- C4 (amended): for one English and one Chinese event that both expand
to the same single date `D`, where `D`'s year parses into
`START_YEAR..END_YEAR`, `get1823Core` returns exactly one merged record
for `D` whose `name_en` is the English event's (trimmed) name and whose
`name_zh` is the Chinese event's (trimmed) name. -/
theorem c4_two_feeds_merge (evEn evZh : JVal) (D nEn nZh : String)
    (hen : expandDates evEn = [D])
    (hzh : expandDates evZh = [D])
    (hnEn : getName evEn = Except.ok nEn)
    (hnZh : getName evZh = Except.ok nZh)
    (hyr : dateYearInRange D = true) :
    get1823Core [evEn] [evZh] =
      Except.ok [{ date := D, name_en := nEn, name_zh := nZh, statutory := false,
                   source := "1823" }] := by
  have h1 : passDates true evEn ([] : HolMap) =
      Except.ok [(D, ⟨D, nEn, "", false, "1823"⟩)] := by
    simp [passDates, hen, hnEn, assocSet]
  have h2 : passDates false evZh [(D, ⟨D, nEn, "", false, "1823"⟩)] =
      Except.ok [(D, ⟨D, nEn, nZh, false, "1823"⟩)] := by
    simp [passDates, hzh, hnZh, assocSet]
  simp only [get1823Core, List.foldlM_cons, List.foldlM_nil, okPure, okBind, h1, h2]
  simp [yearInRange, hyr, sortHol]

/-- Witness for C4 on a concrete two-event synthetic feed. -/
theorem c4_two_feeds_merge_witness :
    get1823Core [JVal.obj [("date", JVal.str "2024-01-01"), ("title", JVal.str "New Year")]]
      [JVal.obj [("date", JVal.str "2024-01-01"), ("title", JVal.str "元旦")]] =
      Except.ok [{ date := "2024-01-01", name_en := "New Year", name_zh := "元旦",
                   statutory := false, source := "1823" }] :=
  c4_two_feeds_merge _ _ "2024-01-01" "New Year" "元旦" rfl rfl rfl rfl (by decide)

/-! ## Claim C5 -/

theorem foldlM_passDates_no_dates (isEn : Bool) :
    ∀ (l : List JVal) (m : HolMap), (∀ ev ∈ l, getDate ev = "") →
      l.foldlM (fun m item => passDates isEn item m) m = Except.ok m
  | [], _, _ => rfl
  | ev :: t, m, h => by
    rw [List.foldlM_cons, passDates_of_no_date isEn m ev (h ev (List.mem_cons_self _ _)),
      okBind]
    exact foldlM_passDates_no_dates isEn t m (fun x hx => h x (List.mem_cons_of_mem _ hx))

theorem get1823Core_no_dates (en zh : List JVal)
    (hen : ∀ ev ∈ en, getDate ev = "") (hzh : ∀ ev ∈ zh, getDate ev = "") :
    get1823Core en zh = Except.ok [] := by
  simp only [get1823Core, foldlM_passDates_no_dates true en ([] : HolMap) hen, okBind,
    foldlM_passDates_no_dates false zh ([] : HolMap) hzh]
  rfl

/-- C5 counterexample: a JSON-parseable jCal feed holding one `vevent`
whose property name is the number `42` — an unrecognized shape from which
no event date can be extracted.  Per the claim `get1823List` should return
`[]`; instead `obj[name.toLowerCase()]` throws an uncaught `TypeError`,
aborting the run. -/
def c5BadFeed : JVal :=
  .arr [.str "vcalendar", .arr [],
    .arr [.arr [.str "vevent", .arr [.arr [.num 42, .null, .null, .str "x"]]]]]

theorem c5_zero_parseable_counterexample :
    get1823 c5BadFeed JVal.null =
      Except.error "TypeError: name.toLowerCase is not a function" := by
  rfl

/-- C5 (amended): whenever event extraction itself completes (which it
does for a missing/unparseable file (`null`), for every unrecognized
top-level shape, and for every feed whose jCal property names are strings
— only a truthy non-string `vevent` property name makes it throw), a pair
of feeds whose extracted events all lack an extractable date yields
`Except.ok []`: an empty list, not an error. -/
theorem c5_zero_parseable_empty (enRaw zhRaw : JVal) (en zh : List JVal)
    (hen : extractEvents enRaw = Except.ok en)
    (hzh : extractEvents zhRaw = Except.ok zh)
    (hed : ∀ ev ∈ en, getDate ev = "")
    (hzd : ∀ ev ∈ zh, getDate ev = "") :
    get1823 enRaw zhRaw = Except.ok [] := by
  simp only [get1823, hen, hzh, okBind]
  exact get1823Core_no_dates en zh hed hzd

/-- Witness for C5: a missing English file (`null`) and a Chinese feed of
unrecognized shape give the empty list. -/
theorem c5_zero_parseable_empty_witness :
    get1823 JVal.null (JVal.obj [("foo", JVal.num 1)]) = Except.ok [] :=
  c5_zero_parseable_empty JVal.null (JVal.obj [("foo", JVal.num 1)]) [] [] rfl rfl
    (fun ev h => absurd h (List.not_mem_nil ev))
    (fun ev h => absurd h (List.not_mem_nil ev))

/-! ## Claim C1 -/

/-- The invariant of the date-keyed merge map: keys are distinct and each
stored record's `date` field equals its key. -/
def mapInv (m : HolMap) : Prop :=
  (m.map Prod.fst).Nodup ∧ ∀ p ∈ m, p.2.date = p.1

theorem lookup_date_eq (m : HolMap) (hm : ∀ p ∈ m, p.2.date = p.1) :
    ∀ (k : String) (v : Holiday), m.lookup k = some v → v.date = k := by
  induction m with
  | nil => intro k v h; exact absurd h (by simp)
  | cons p t ih =>
    intro k v h
    simp only [List.lookup] at h
    cases hbeq : k == p.1 with
    | false =>
      rw [hbeq] at h
      exact ih (fun q hq => hm q (List.mem_cons_of_mem _ hq)) k v h
    | true =>
      rw [hbeq] at h
      obtain rfl : p.2 = v := Option.some.inj h
      rw [hm p (List.mem_cons_self _ _)]
      exact (eq_of_beq hbeq).symm

theorem assocSet_inv (m : HolMap) (k : String) (v : Holiday)
    (hv : v.date = k) (hm : mapInv m) : mapInv (assocSet m k v) := by
  obtain ⟨hk, hd⟩ := hm
  unfold assocSet
  by_cases hp : m.any (fun p => p.1 = k)
  · rw [if_pos hp]
    constructor
    · have heq : (m.map (fun p => if p.1 = k then (k, v) else p)).map Prod.fst =
          m.map Prod.fst := by
        rw [List.map_map]
        apply List.map_congr_left
        intro p _
        by_cases h : p.1 = k
        · simp [h]
        · simp [h]
      rw [heq]
      exact hk
    · intro p hp2
      obtain ⟨q, hq, hqe⟩ := List.mem_map.mp hp2
      by_cases h : q.1 = k
      · rw [if_pos h] at hqe
        rw [← hqe]
        exact hv
      · rw [if_neg h] at hqe
        rw [← hqe]
        exact hd q hq
  · rw [if_neg hp]
    constructor
    · rw [List.map_append]
      have hknot : k ∉ m.map Prod.fst := by
        intro hmem
        obtain ⟨q, hq, hqe⟩ := List.mem_map.mp hmem
        exact hp (List.any_eq_true.mpr ⟨q, hq, by simp [hqe]⟩)
      simp only [List.map_cons, List.map_nil]
      rw [List.nodup_append]
      exact ⟨hk, List.nodup_singleton k, by
        intro a ha hb
        rw [List.mem_singleton] at hb
        exact hknot (hb ▸ ha)⟩
    · intro p hp2
      rcases List.mem_append.mp hp2 with h | h
      · exact hd p h
      · rw [List.mem_singleton] at h
        rw [h]
        exact hv

/-- Invariant preservation through a monadic fold over `Except`. -/
theorem foldlM_except_inv {α β : Type} (P : β → Prop) (f : β → α → Except String β)
    (hf : ∀ b a b', P b → f b a = Except.ok b' → P b') :
    ∀ (l : List α) (b b' : β), P b → l.foldlM f b = Except.ok b' → P b'
  | [], _, _, hb, h => (Except.ok.inj h) ▸ hb
  | a :: t, b, b', hb, h => by
    rw [List.foldlM_cons] at h
    cases hx : f b a with
    | error e =>
      rw [hx] at h
      have hcontra : Except.error e = Except.ok b' := h
      exact absurd hcontra (by simp)
    | ok b1 =>
      rw [hx, okBind] at h
      exact foldlM_except_inv P f hf t b1 b' (hf b a b1 hb hx) h

theorem passDates_step_inv (isEn : Bool) (item : JVal) (m : HolMap) (d : String)
    (m' : HolMap) (hm : mapInv m)
    (h : (do
      let nm ← getName item
      let target := (m.lookup d).getD ⟨d, "", "", false, "1823"⟩
      let target :=
        if isEn then { target with name_en := nm } else { target with name_zh := nm }
      pure (assocSet m d target)) = Except.ok m') : mapInv m' := by
  cases hg : getName item with
  | error e =>
    rw [hg] at h
    have hcontra : Except.error e = Except.ok m' := h
    exact absurd hcontra (by simp)
  | ok nm =>
    rw [hg] at h
    have h' : assocSet m d
        (if isEn then
          { (m.lookup d).getD ⟨d, "", "", false, "1823"⟩ with name_en := nm }
         else
          { (m.lookup d).getD ⟨d, "", "", false, "1823"⟩ with name_zh := nm }) = m' :=
      Except.ok.inj h
    have hdate : ((m.lookup d).getD ⟨d, "", "", false, "1823"⟩).date = d := by
      cases hl : m.lookup d with
      | none => simp [hl]
      | some v =>
        simp only [hl, Option.getD_some]
        exact lookup_date_eq m hm.2 d v hl
    rw [← h']
    cases isEn with
    | true =>
      simp only [if_true]
      exact assocSet_inv m d _ hdate hm
    | false =>
      simp only [Bool.false_eq_true, if_false]
      exact assocSet_inv m d _ hdate hm

theorem passDates_pres (isEn : Bool) (item : JVal) (m m' : HolMap)
    (hm : mapInv m) (h : passDates isEn item m = Except.ok m') : mapInv m' := by
  unfold passDates at h
  exact foldlM_except_inv mapInv _
    (fun b a b' hb hab => passDates_step_inv isEn item b a b' hb hab)
    (expandDates item) m m' hm h

theorem get1823Core_dates_nodup (en zh : List JVal) (out : List Holiday)
    (h : get1823Core en zh = Except.ok out) : (out.map Holiday.date).Nodup := by
  unfold get1823Core at h
  cases h1 : en.foldlM (fun m item => passDates true item m) ([] : HolMap) with
  | error e =>
    rw [h1] at h
    have hcontra : Except.error e = Except.ok out := h
    exact absurd hcontra (by simp)
  | ok m1 =>
    rw [h1, okBind] at h
    cases h2 : zh.foldlM (fun m item => passDates false item m) m1 with
    | error e =>
      rw [h2] at h
      have hcontra : Except.error e = Except.ok out := h
      exact absurd hcontra (by simp)
    | ok m2 =>
      rw [h2, okBind, okPure] at h
      obtain rfl : sortHol ((m2.map Prod.snd).filter yearInRange) = out :=
        Except.ok.inj h
      have hminv1 : mapInv m1 :=
        foldlM_except_inv mapInv _
          (fun b a b' hb hab => passDates_pres true a b b' hb hab)
          en [] m1 ⟨List.nodup_nil, by simp⟩ h1
      have hminv2 : mapInv m2 :=
        foldlM_except_inv mapInv _
          (fun b a b' hb hab => passDates_pres false a b b' hb hab)
          zh m1 m2 hminv1 h2
      have hvals : ((m2.map Prod.snd).map Holiday.date).Nodup := by
        have heq : (m2.map Prod.snd).map Holiday.date = m2.map Prod.fst := by
          rw [List.map_map]
          apply List.map_congr_left
          intro p hp
          exact hminv2.2 p hp
        rw [heq]
        exact hminv2.1
      have hfil : (((m2.map Prod.snd).filter yearInRange).map Holiday.date).Nodup :=
        List.Nodup.sublist
          (List.Sublist.map Holiday.date (List.filter_sublist (m2.map Prod.snd))) hvals
      have hperm : List.Perm (sortHol ((m2.map Prod.snd).filter yearInRange))
          ((m2.map Prod.snd).filter yearInRange) := List.perm_insertionSort _ _
      exact ((hperm.map Holiday.date).nodup_iff).mpr hfil

theorem dedupFinalAux_keys : ∀ (l : List GenHoliday) (seen : List String),
    ((dedupFinalAux seen l).map dedupKey).Nodup ∧
      ∀ k ∈ (dedupFinalAux seen l).map dedupKey, k ∉ seen
  | [], _ => ⟨List.nodup_nil, by simp [dedupFinalAux]⟩
  | h :: t, seen => by
    by_cases hk : dedupKey h ∈ seen
    · simp only [dedupFinalAux, if_pos hk]
      exact dedupFinalAux_keys t seen
    · simp only [dedupFinalAux, if_neg hk, List.map_cons]
      obtain ⟨ih1, ih2⟩ := dedupFinalAux_keys t (dedupKey h :: seen)
      refine ⟨List.nodup_cons.mpr ⟨?_, ih1⟩, ?_⟩
      · intro hmem
        exact (ih2 _ hmem) (List.mem_cons_self _ _)
      · intro k hkmem
        rcases List.mem_cons.mp hkmem with rfl | hkt
        · exact hk
        · intro hks
          exact (ih2 k hkt) (List.mem_cons_of_mem _ hks)

def c1RecA : GenHoliday :=
  { date := "2024-01-01", name_en := "A", name_zh := "", general_holiday := true,
    statutory_holiday := false, sources := [] }

def c1RecB : GenHoliday :=
  { date := "2024-01-01", name_en := "B", name_zh := "", general_holiday := true,
    statutory_holiday := false, sources := [] }

/-- C1 counterexample: the final de-dup filter of `generate.js` keys on
`date|name_en|name_zh|general|statutory`, not on the date alone: two
records sharing date `2024-01-01` but differing in `name_en` both survive,
so the final list does not have unique `date` values. -/
theorem c1_dedup_counterexample :
    dedupFinal [c1RecA, c1RecB] = [c1RecA, c1RecB] ∧
    (dedupFinal [c1RecA, c1RecB]).map GenHoliday.date = ["2024-01-01", "2024-01-01"] ∧
    ¬ ((dedupFinal [c1RecA, c1RecB]).map GenHoliday.date).Nodup := by
  refine ⟨by decide, by decide, by decide⟩

/-- C1 (amended): the `Map`-keyed merge of `get1823List` does give at most
one record per date — any successful output has pairwise-distinct `date`
values; the final filter of `generate.js`, however, de-duplicates by the
full `date|name_en|name_zh|general|statutory` key (its output keys are
pairwise distinct), which removes only exact duplicates and does not
collapse two records sharing just a date. -/
theorem c1_dedup_uniqueness :
    (∀ (en zh : List JVal) (out : List Holiday),
      get1823Core en zh = Except.ok out → (out.map Holiday.date).Nodup) ∧
    (∀ l : List GenHoliday, ((dedupFinal l).map dedupKey).Nodup) :=
  ⟨get1823Core_dates_nodup, fun l => (dedupFinalAux_keys l []).1⟩

/-- Witness for C1: a successful concrete run of the merge, and the
final filter on the very list of the counterexample. -/
theorem c1_dedup_uniqueness_witness :
    (([{ date := "2024-01-01", name_en := "X", name_zh := "", statutory := false,
         source := "1823" }] : List Holiday).map Holiday.date).Nodup ∧
    ((dedupFinal [c1RecA, c1RecB]).map dedupKey).Nodup :=
  ⟨c1_dedup_uniqueness.1 [JVal.obj [("date", JVal.str "2024-01-01"), ("title", JVal.str "X")]]
      [] _ rfl,
   c1_dedup_uniqueness.2 [c1RecA, c1RecB]⟩

/-! ## Claim C7 -/

/-- Every record the merge map ever stores has `statutory = false`: the
scripts only set the flag in the `--statutory` pass. -/
def mapStatFalse (m : HolMap) : Prop :=
  ∀ p ∈ m, p.2.statutory = false

theorem assocSet_statFalse (m : HolMap) (k : String) (v : Holiday)
    (hv : v.statutory = false) (hm : mapStatFalse m) : mapStatFalse (assocSet m k v) := by
  unfold assocSet
  by_cases hp : m.any (fun p => p.1 = k)
  · rw [if_pos hp]
    intro p hp2
    obtain ⟨q, hq, hqe⟩ := List.mem_map.mp hp2
    by_cases h : q.1 = k
    · rw [if_pos h] at hqe
      rw [← hqe]
      exact hv
    · rw [if_neg h] at hqe
      rw [← hqe]
      exact hm q hq
  · rw [if_neg hp]
    intro p hp2
    rcases List.mem_append.mp hp2 with h | h
    · exact hm p h
    · rw [List.mem_singleton] at h
      rw [h]
      exact hv

theorem lookup_statFalse (m : HolMap) (hm : mapStatFalse m) :
    ∀ (k : String) (v : Holiday), m.lookup k = some v → v.statutory = false := by
  induction m with
  | nil => intro k v h; exact absurd h (by simp)
  | cons p t ih =>
    intro k v h
    simp only [List.lookup] at h
    cases hbeq : k == p.1 with
    | false =>
      rw [hbeq] at h
      exact ih (fun q hq => hm q (List.mem_cons_of_mem _ hq)) k v h
    | true =>
      rw [hbeq] at h
      obtain rfl : p.2 = v := Option.some.inj h
      exact hm p (List.mem_cons_self _ _)

theorem passDates_step_statFalse (isEn : Bool) (item : JVal) (m : HolMap) (d : String)
    (m' : HolMap) (hm : mapStatFalse m)
    (h : (do
      let nm ← getName item
      let target := (m.lookup d).getD ⟨d, "", "", false, "1823"⟩
      let target :=
        if isEn then { target with name_en := nm } else { target with name_zh := nm }
      pure (assocSet m d target)) = Except.ok m') : mapStatFalse m' := by
  cases hg : getName item with
  | error e =>
    rw [hg] at h
    have hcontra : Except.error e = Except.ok m' := h
    exact absurd hcontra (by simp)
  | ok nm =>
    rw [hg] at h
    have h' : assocSet m d
        (if isEn then
          { (m.lookup d).getD ⟨d, "", "", false, "1823"⟩ with name_en := nm }
         else
          { (m.lookup d).getD ⟨d, "", "", false, "1823"⟩ with name_zh := nm }) = m' :=
      Except.ok.inj h
    have hstat : ((m.lookup d).getD ⟨d, "", "", false, "1823"⟩).statutory = false := by
      cases hl : m.lookup d with
      | none => simp [hl]
      | some v =>
        simp only [hl, Option.getD_some]
        exact lookup_statFalse m hm d v hl
    rw [← h']
    cases isEn with
    | true =>
      simp only [if_true]
      exact assocSet_statFalse m d _ hstat hm
    | false =>
      simp only [Bool.false_eq_true, if_false]
      exact assocSet_statFalse m d _ hstat hm

theorem passDates_statFalse (isEn : Bool) (item : JVal) (m m' : HolMap)
    (hm : mapStatFalse m) (h : passDates isEn item m = Except.ok m') :
    mapStatFalse m' := by
  unfold passDates at h
  exact foldlM_except_inv mapStatFalse _
    (fun b a b' hb hab => passDates_step_statFalse isEn item b a b' hb hab)
    (expandDates item) m m' hm h

theorem get1823Core_statutory_false (en zh : List JVal) (out : List Holiday)
    (h : get1823Core en zh = Except.ok out) : ∀ r ∈ out, r.statutory = false := by
  unfold get1823Core at h
  cases h1 : en.foldlM (fun m item => passDates true item m) ([] : HolMap) with
  | error e =>
    rw [h1] at h
    have hcontra : Except.error e = Except.ok out := h
    exact absurd hcontra (by simp)
  | ok m1 =>
    rw [h1, okBind] at h
    cases h2 : zh.foldlM (fun m item => passDates false item m) m1 with
    | error e =>
      rw [h2] at h
      have hcontra : Except.error e = Except.ok out := h
      exact absurd hcontra (by simp)
    | ok m2 =>
      rw [h2, okBind, okPure] at h
      obtain rfl : sortHol ((m2.map Prod.snd).filter yearInRange) = out :=
        Except.ok.inj h
      have hsf2 : mapStatFalse m2 :=
        foldlM_except_inv mapStatFalse _
          (fun b a b' hb hab => passDates_statFalse false a b b' hb hab)
          zh m1 m2
          (foldlM_except_inv mapStatFalse _
            (fun b a b' hb hab => passDates_statFalse true a b b' hb hab)
            en [] m1 (by simp [mapStatFalse]) h1)
          h2
      intro r hr
      have hr2 : r ∈ (m2.map Prod.snd).filter yearInRange :=
        (List.perm_insertionSort _ _).mem_iff.mp hr
      have hr3 : r ∈ m2.map Prod.snd := List.mem_of_mem_filter hr2
      obtain ⟨p, hp, hpe⟩ := List.mem_map.mp hr3
      rw [← hpe]
      exact hsf2 p hp

theorem mem_perYearFinal (includeStat : Bool) (stats : String → List String)
    (all : List Holiday) (y : String) (r : Holiday)
    (h : r ∈ perYearFinal includeStat stats all y) :
    ∃ r₀ ∈ perYearList all y, r = (if includeStat then
      { r₀ with statutory := (stats y).contains r₀.date } else r₀) := by
  unfold perYearFinal at h
  have h2 := (List.perm_insertionSort _ _).mem_iff.mp h
  cases includeStat with
  | true =>
    simp only [if_true] at h2 ⊢
    obtain ⟨r₀, hr₀, hre⟩ := List.mem_map.mp h2
    exact ⟨r₀, hr₀, hre.symm⟩
  | false =>
    simp only [Bool.false_eq_true, if_false] at h2 ⊢
    exact ⟨r, h2, rfl⟩

/-- C7: the statutory cross-referencing pass runs exactly when the
`--statutory` flag is present in `argv`; the pass rewrites only the
`statutory` field of each record — `date`, `name_en`, `name_zh` and
`source` are unchanged and `statutory` becomes membership of the date in
the scraped set; and without the flag every record of every per-year
output and of the `ALL` output has `statutory = false`. -/
theorem c7_statutory_flag_frame :
    (∀ (stats : List String) (l : List Holiday),
      (applyStatutory stats l).map Holiday.date = l.map Holiday.date ∧
      (applyStatutory stats l).map Holiday.name_en = l.map Holiday.name_en ∧
      (applyStatutory stats l).map Holiday.name_zh = l.map Holiday.name_zh ∧
      (applyStatutory stats l).map Holiday.source = l.map Holiday.source ∧
      (applyStatutory stats l).map Holiday.statutory =
        l.map (fun h => (stats.contains h.date : Bool))) ∧
    (∀ argv : List String, INCLUDE_STATUTORY argv = true ↔ "--statutory" ∈ argv) ∧
    (∀ (stats : String → List String) (en zh : List JVal) (out : List Holiday),
      get1823Core en zh = Except.ok out →
      (∀ (y : String), ∀ r ∈ perYearFinal false stats out y, r.statutory = false) ∧
      (∀ r ∈ allYearsList false stats out, r.statutory = false)) := by
  refine ⟨fun stats l => ⟨?_, ?_, ?_, ?_, ?_⟩, fun argv => ?_, fun stats en zh out h => ?_⟩
  · simp [applyStatutory, List.map_map]
  · simp [applyStatutory, List.map_map]
  · simp [applyStatutory, List.map_map]
  · simp [applyStatutory, List.map_map]
  · simp [applyStatutory, List.map_map]
  · simp [INCLUDE_STATUTORY]
  · have hout := get1823Core_statutory_false en zh out h
    have hyear : ∀ (y : String), ∀ r ∈ perYearFinal false stats out y,
        r.statutory = false := by
      intro y r hr
      obtain ⟨r₀, hr₀, hre⟩ := mem_perYearFinal false stats out y r hr
      simp only [Bool.false_eq_true, if_false] at hre
      rw [hre]
      exact hout r₀ (List.mem_of_mem_filter hr₀)
    refine ⟨hyear, fun r hr => ?_⟩
    obtain ⟨y, _, hry⟩ := List.mem_flatMap.mp hr
    exact hyear y r hry

/-- Witness for C7 at a concrete merge output and statutory set. -/
theorem c7_statutory_flag_frame_witness :
    ((applyStatutory ["2024-01-01"]
        [{ date := "2024-01-01", name_en := "X", name_zh := "", statutory := false,
           source := "1823" }]).map Holiday.date =
      [{ date := "2024-01-01", name_en := "X", name_zh := "", statutory := false,
         source := "1823" : Holiday }].map Holiday.date) ∧
    (INCLUDE_STATUTORY ["node", "gen.mjs"] = true ↔ "--statutory" ∈ ["node", "gen.mjs"]) ∧
    (∀ r ∈ allYearsList false (fun _ => [])
        [{ date := "2024-01-01", name_en := "X", name_zh := "", statutory := false,
           source := "1823" }],
      r.statutory = false) :=
  ⟨(c7_statutory_flag_frame.1 ["2024-01-01"] _).1,
   c7_statutory_flag_frame.2.1 ["node", "gen.mjs"],
   (c7_statutory_flag_frame.2.2 (fun _ => [])
      [JVal.obj [("date", JVal.str "2024-01-01"), ("title", JVal.str "X")]] [] _ rfl).2⟩

/-! ## Claim C6 -/

theorem string_eq_of_data_eq {a b : String} (h : a.data = b.data) : a = b := by
  cases a
  cases b
  exact congrArg String.mk h

theorem dedupFirst_nodup : ∀ l : List String, (dedupFirst l).Nodup
  | [] => List.nodup_nil
  | x :: xs => by
    rw [dedupFirst, List.nodup_cons]
    constructor
    · intro hmem
      have := (List.mem_filter.mp hmem).2
      simp at this
    · exact List.Nodup.filter _ (dedupFirst_nodup xs)

/-- The year keys written by `main` are pairwise strictly increasing. -/
theorem yearsOf_pairwise_lt (all : List Holiday) :
    (yearsOf all).Pairwise (fun a b => strLt a b = true) := by
  have hsorted : (yearsOf all).Pairwise sLe := List.sorted_insertionSort sLe _
  have hnodup : (yearsOf all).Nodup :=
    ((List.perm_insertionSort sLe _).nodup_iff).mpr (dedupFirst_nodup _)
  refine (hsorted.and hnodup).imp ?_
  rintro a b ⟨hle, hne⟩
  exact lexLtB_of_le_of_ne a.data b.data hle
    (fun hd => hne (string_eq_of_data_eq hd))

/-- Every record of a per-year output carries that year key. -/
theorem yearKey_of_mem_perYearFinal (includeStat : Bool) (stats : String → List String)
    (all : List Holiday) (y : String) (r : Holiday)
    (h : r ∈ perYearFinal includeStat stats all y) : yearKey r = y := by
  obtain ⟨r₀, hr₀, hre⟩ := mem_perYearFinal includeStat stats all y r h
  have hkey : yearKey r₀ = y := by
    have := (List.mem_filter.mp hr₀).2
    simpa using this
  cases includeStat with
  | true =>
    simp only [if_true] at hre
    rw [hre]
    exact hkey
  | false =>
    simp only [Bool.false_eq_true, if_false] at hre
    rw [hre]
    exact hkey

theorem perYearFinal_sorted (includeStat : Bool) (stats : String → List String)
    (all : List Holiday) (y : String) :
    (perYearFinal includeStat stats all y).Pairwise holLe :=
  List.sorted_insertionSort holLe _

theorem pairwise_flatMap {α β : Type} {R : β → β → Prop} {S : α → α → Prop}
    (f : α → List β) :
    ∀ l : List α, l.Pairwise S → (∀ a ∈ l, (f a).Pairwise R) →
      (∀ a b, S a b → ∀ x ∈ f a, ∀ y ∈ f b, R x y) →
      (l.flatMap f).Pairwise R
  | [], _, _, _ => List.Pairwise.nil
  | a :: t, hS, hR, hcross => by
    rw [List.flatMap_cons, List.pairwise_append]
    refine ⟨hR a (List.mem_cons_self _ _),
      pairwise_flatMap f t hS.of_cons
        (fun b hb => hR b (List.mem_cons_of_mem _ hb)) hcross, ?_⟩
    intro x hx z hz
    obtain ⟨b, hb, hzb⟩ := List.mem_flatMap.mp hz
    exact hcross a b (List.rel_of_pairwise_cons hS hb) x hx z hzb

def c6Rec : GenHoliday :=
  { date := "2018-01-01", name_en := "New Year", name_zh := "",
    general_holiday := true, statutory_holiday := false, sources := [] }

/-- C6 counterexample: the final JSON list of `generate.js` is produced by
concatenating the per-year `mergeAndMark` outputs and filtering exact
duplicates — no final sort.  When an earlier year's statutory scrape
yields a later year's date (the Labour summary page carries explicit
years, e.g. `1 May 2019` while processing 2017), the concatenation is out
of order and stays so: here `2019-05-01` precedes `2018-01-01` in the
final list. -/
theorem c6_final_unsorted_counterexample :
    ¬ (dedupFinal (mergeAndMark [] ["2019-05-01"] ++
        mergeAndMark [c6Rec] [])).Pairwise genHolLe := by
  decide

/-- C6 (amended): every list `fetch_company_holidays.mjs` outputs is
sorted ascending by date under string comparison — the merged
`get1823List` result, each per-year list, and the `ALL` concatenation
(whose chunks are grouped by the 4-character year key and emitted in
ascending year order); the final list of `generate.js`, by contrast,
receives no final sort and is not sorted in general. -/
theorem c6_outputs_sorted :
    (∀ (en zh : List JVal) (out : List Holiday),
      get1823Core en zh = Except.ok out → out.Pairwise holLe) ∧
    (∀ (includeStat : Bool) (stats : String → List String) (all : List Holiday)
      (y : String), (perYearFinal includeStat stats all y).Pairwise holLe) ∧
    (∀ (includeStat : Bool) (stats : String → List String) (all : List Holiday),
      (allYearsList includeStat stats all).Pairwise holLe) := by
  refine ⟨?_, perYearFinal_sorted, ?_⟩
  · intro en zh out h
    unfold get1823Core at h
    cases h1 : en.foldlM (fun m item => passDates true item m) ([] : HolMap) with
    | error e =>
      rw [h1] at h
      have hcontra : Except.error e = Except.ok out := h
      exact absurd hcontra (by simp)
    | ok m1 =>
      rw [h1, okBind] at h
      cases h2 : zh.foldlM (fun m item => passDates false item m) m1 with
      | error e =>
        rw [h2] at h
        have hcontra : Except.error e = Except.ok out := h
        exact absurd hcontra (by simp)
      | ok m2 =>
        rw [h2, okBind, okPure] at h
        obtain rfl : sortHol ((m2.map Prod.snd).filter yearInRange) = out :=
          Except.ok.inj h
        exact List.sorted_insertionSort holLe _
  · intro includeStat stats all
    unfold allYearsList
    apply pairwise_flatMap
    · exact yearsOf_pairwise_lt all
    · intro y _
      exact perYearFinal_sorted includeStat stats all y
    · intro y1 y2 hlt x hx z hz
      have hx1 : yearKey x = y1 := yearKey_of_mem_perYearFinal _ _ _ _ _ hx
      have hz2 : yearKey z = y2 := yearKey_of_mem_perYearFinal _ _ _ _ _ hz
      have hd1 : x.date.data.take 4 = y1.data := by
        rw [← hx1]
        rfl
      have hd2 : z.date.data.take 4 = y2.data := by
        rw [← hz2]
        rfl
      have hlt' : lexLtB (x.date.data.take 4) (z.date.data.take 4) = true := by
        rw [hd1, hd2]
        exact hlt
      exact lexLtB_le _ _ (lexLtB_of_take 4 _ _ hlt')

/-- Witness for C6 at a concrete successful merge. -/
theorem c6_outputs_sorted_witness :
    ([{ date := "2024-01-01", name_en := "X", name_zh := "", statutory := false,
        source := "1823" }] : List Holiday).Pairwise holLe ∧
    (perYearFinal false (fun _ => [])
      [{ date := "2024-01-01", name_en := "X", name_zh := "", statutory := false,
         source := "1823" }] "2024").Pairwise holLe ∧
    (allYearsList false (fun _ => [])
      [{ date := "2024-01-01", name_en := "X", name_zh := "", statutory := false,
         source := "1823" }]).Pairwise holLe :=
  ⟨c6_outputs_sorted.1 [JVal.obj [("date", JVal.str "2024-01-01"), ("title", JVal.str "X")]]
      [] _ rfl,
   c6_outputs_sorted.2.1 false (fun _ => []) _ "2024",
   c6_outputs_sorted.2.2 false (fun _ => []) _⟩

end HkHolidays
